import Mathlib

/-!
# ccze: plugin dispatch pipeline and lifecycle (`src/ccze.c`)

A shallow embedding of `ccze.c`: option parsing (`parse_opt`), the colour-rule
cascade, the date helper (`ccze_print_date`), the construction of the
NULL-terminated `plugins` array, the startup loop, the per-line dispatch loop,
and the teardown routine `sigint_handler`, followed by the properties of the
dispatch pipeline and of the plugin lifecycle that hold of them.

Conventions of the embedding.

* C strings are `List Char` (one `Char` per byte) where their bytes matter
  (`subject`, `rest`, `date`), and `String` for file and plugin names.
* Calls the core makes into its collaborators (curses, the colour module, the
  word-colouring pass, the plugin hooks, libc `free`/`exit`) are recorded, in
  program order, as `Event`s in a trace.  The collaborators themselves are
  opaque: their effect on the outside world is a function on a world type `σ`.
* `Option` results: `none` stands for undefined behaviour of the C program
  (a write through a NULL pointer, a read of an indeterminate or out-of-bounds
  array cell, a use after free).
-/

namespace Ccze

/-! ## Data model -/

/-- The colour class of `ccze-color.h` that `ccze_print_date` uses. -/
inductive ccze_color_t where
  | CCZE_COLOR_DATE
  deriving DecidableEq, Repr

/-- One call made by `ccze.c` into a collaborator.  Plugins are identified by
their index in the `plugins` array. -/
inductive Event where
  | initscr
  | signal_SIGINT
  | signal_SIGWINCH
  | nonl
  | idlok
  | scrollok
  | leaveok
  | start_color
  | init_pair (pair fg bg : Nat)
  | ccze_color_init
  | ccze_color_load (path : String)
  | ccze_wordcolor_setup
  | ccze_plugin_load_all
  | ccze_plugin_load (name : String)
  | startup (i : Nat)
  | handler (i : Nat) (subject : List Char) (subjlen : Nat) (status : Int)
      (rest : Option (List Char))
  | ccze_wordcolor_process (text : List Char) (wcol slookup : Int)
  | CCZE_NEWLINE
  | CCZE_ADDSTR (color : ccze_color_t) (text : List Char)
  | free_rest
  | refresh
  | free_subject
  | endwin
  | ccze_wordcolor_shutdown
  | shutdown (i : Nat)
  | free_name (i : Nat)
  | dlclose (i : Nat) (dlhandle : Nat)
  | free_plugin (i : Nat)
  | free_plugins
  | exit (code : Int)
  deriving DecidableEq, Repr

/-- The plugin record `ccze_plugin_t` as `ccze.c` uses it: `name`, `dlhandle`
and the three hooks.  A hook is a C procedure; its effect on the outside world
is a function on `σ`.  The handler receives `subject`, `subjlen` and the
current value of `rest`, and returns its `int` result, the new value of
`rest`, and the new world. -/
structure ccze_plugin_t (σ : Type) where
  name : String
  dlhandle : Nat
  startup : σ → σ
  shutdown : σ → σ
  handler : σ → List Char → Nat → Option (List Char) → Int × Option (List Char) × σ

/-- One cell of a heap array of pointers: `val none` is a NULL pointer,
`val (some p)` a valid pointer, `indeterminate` a cell that was never written
(memory added by `realloc`). -/
inductive Cell (α : Type) where
  | indeterminate
  | val (p : Option α)

/-- The global `ccze_config`.  `pluginlist` holds the cells written so far
(`pluginlist_len` is kept beside it, as in the source); cells at an index of
`pluginlist_len` or more are never read by `ccze.c`. -/
structure ccze_config_t where
  scroll : Int
  convdate : Int
  wcol : Int
  slookup : Int
  rcfile : Option String
  pluginlist : List String
  pluginlist_alloc : Nat
  pluginlist_len : Nat
  deriving DecidableEq, Repr

/-- Execution state: the outside world and the trace of calls made so far. -/
structure State (σ : Type) where
  world : σ
  trace : List Event

/-- What `ccze.c` takes from its environment: the build-time `SYSCONFDIR`, the
value of `getenv ("HOME")`, the plugin loader of `ccze-plugin.c`, the growth
policy of `getline` for its buffer (old size, bytes needed, new size), and the
effect of each collaborator call on the world. -/
structure Env (σ : Type) where
  SYSCONFDIR : String
  HOME : Option String
  ccze_plugin_load : String → Option (ccze_plugin_t σ)
  ccze_plugin_load_all : List (Cell (ccze_plugin_t σ))
  getline_alloc : Nat → Nat → Nat
  ext : Event → σ → σ

/-- Perform one collaborator call: its effect on the world, and its record. -/
def emit {σ : Type} (env : Env σ) (e : Event) (s : State σ) : State σ :=
  { world := env.ext e s.world, trace := s.trace ++ [e] }

/-- Perform a sequence of collaborator calls in order. -/
def emits {σ : Type} (env : Env σ) : List Event → State σ → State σ
  | [], s => s
  | e :: es, s => emits env es (emit env e s)

/-! ## `parse_opt` and `argp_parse` -/

/-- The value `ARGP_ERR_UNKNOWN` (`E2BIG`). -/
def ARGP_ERR_UNKNOWN : Int := 7

/-- The function `parse_opt`: `key` is the option key (`'p'` = 112, `'F'` = 70,
`'s'` = 115, `'C'` = 67, and -100, -101, -102), `arg` its argument.  Returns
the error code and the updated configuration. -/
def parse_opt (key : Int) (arg : String) (c : ccze_config_t) : Int × ccze_config_t :=
  if key = 112 then
    let c1 := { c with pluginlist := c.pluginlist.take c.pluginlist_len ++ [arg],
                       pluginlist_len := c.pluginlist_len + 1 }
    if c1.pluginlist_len ≥ c1.pluginlist_alloc then
      (0, { c1 with pluginlist_alloc := 2 * c1.pluginlist_alloc })
    else (0, c1)
  else if key = 70 then (0, { c with rcfile := some arg })
  else if key = 115 then (0, { c with scroll := 1 })
  else if key = -100 then (0, { c with scroll := 0 })
  else if key = 67 then (0, { c with convdate := 1 })
  else if key = -101 then (0, { c with wcol := 0 })
  else if key = -102 then (0, { c with slookup := 0 })
  else (ARGP_ERR_UNKNOWN, c)

/-- The call `argp_parse`: hands the options found on the command line to
`parse_opt`, in command-line order; `none` when `parse_opt` rejects one (argp
then prints the usage and exits). -/
def argp_parse : List (Int × String) → ccze_config_t → Option ccze_config_t
  | [], c => some c
  | (key, arg) :: opts, c =>
    let r := parse_opt key arg c
    if r.1 = 0 then argp_parse opts r.2 else none

/-- The configuration `main` sets up before `argp_parse`. -/
def initial_config : ccze_config_t :=
  { scroll := 1, convdate := 0, wcol := 1, slookup := 1, rcfile := none,
    pluginlist := [], pluginlist_alloc := 10, pluginlist_len := 0 }

/-! ## Terminal setup and the colour-rule cascade -/

/-- The table `colors[]`: `COLOR_BLACK, COLOR_RED, COLOR_GREEN, COLOR_YELLOW,
COLOR_BLUE, COLOR_CYAN, COLOR_MAGENTA, COLOR_WHITE` with the curses values. -/
def colors : List Nat := [0, 1, 2, 3, 4, 6, 5, 7]

/-- The part of `main` from `initscr` to `ccze_color_init`. -/
def curses_setup (c : ccze_config_t) : List Event :=
  [.initscr, .signal_SIGINT, .signal_SIGWINCH, .nonl]
  ++ (if c.scroll ≠ 0 then [.idlok, .scrollok, .leaveok] else [])
  ++ [.start_color]
  ++ ((List.range 8).map (fun i => (List.range 8).map (fun j =>
        Event.init_pair (i * 8 + j) (colors.getD j 0) (colors.getD i 0)))).flatten
  ++ [.ccze_color_init]

/-- The files `main` passes to `ccze_color_load`, in call order. -/
def color_files (SYSCONFDIR : String) (rcfile HOME : Option String) : List String :=
  match rcfile with
  | some f => [f]
  | none =>
    [SYSCONFDIR ++ "/colorizerc", SYSCONFDIR ++ "/cczerc"]
    ++ (match HOME with
        | some home => [home ++ "/.colorizerc", home ++ "/.cczerc"]
        | none => [])

/-! ## `ccze_print_date` -/

/-- The libc predicate `isspace` in the C locale. -/
def isspace (c : Char) : Bool :=
  c = ' ' || c = '\t' || c = '\n' || c = '\x0b' || c = '\x0c' || c = '\r'

/-- The libc predicate `isdigit`. -/
def isdigit (c : Char) : Bool := '0' ≤ c && c ≤ '9'

/-- Value of the longest prefix of decimal digits, continuing from `acc`. -/
def digits_value : Nat → List Char → Nat
  | acc, [] => acc
  | acc, c :: cs => if isdigit c then digits_value (10 * acc + (c.toNat - 48)) cs else acc

/-- Largest value of `long` (LP64). -/
def LONG_MAX : Int := 2 ^ 63 - 1

/-- Smallest value of `long` (LP64). -/
def LONG_MIN : Int := -(2 ^ 63)

/-- The libc function `atol` (glibc: `strtol (s, NULL, 10)`): skips leading
white space, takes an optional sign and the longest run of digits; no digits
give 0; out-of-range values are clamped. -/
def atol (s : List Char) : Int :=
  match s.dropWhile isspace with
  | [] => 0
  | c :: r =>
    if c = '-' then max LONG_MIN (-(digits_value 0 r : Int))
    else if c = '+' then min LONG_MAX (digits_value 0 r : Int)
    else min LONG_MAX (digits_value 0 (c :: r) : Int)

/-- The fields of `struct tm` that the format `"%b %e %T"` reads, and
`tm_year` (years since 1900). -/
structure tm where
  tm_sec : Nat
  tm_min : Nat
  tm_hour : Nat
  tm_mday : Nat
  tm_mon : Nat
  tm_year : Int
  deriving DecidableEq, Repr

/-- The libc function `gmtime`: broken-down UTC time of `t` seconds since the
epoch (proleptic Gregorian calendar); `none` (a NULL result) when the year
does not fit `int tm_year`. -/
def gmtime (t : Int) : Option tm :=
  let days := t / 86400
  let secs := (t % 86400).toNat
  let z := days + 719468
  let era := z / 146097
  let doe := (z % 146097).toNat
  let yoe := (doe - doe / 1460 + doe / 36524 - doe / 146096) / 365
  let doy := doe - (365 * yoe + yoe / 4 - yoe / 100)
  let mp := (5 * doy + 2) / 153
  let d := doy - (153 * mp + 2) / 5 + 1
  let m := if mp < 10 then mp + 3 else mp - 9
  let y : Int := (yoe : Int) + era * 400 + (if m ≤ 2 then 1 else 0)
  if y - 1900 > 2 ^ 31 - 1 ∨ y - 1900 < -(2 ^ 31) then none
  else some { tm_sec := secs % 60, tm_min := secs / 60 % 60, tm_hour := secs / 3600,
              tm_mday := d, tm_mon := m - 1, tm_year := y - 1900 }

/-- Abbreviated month names of the C locale (`%b`). -/
def month_abbrev : List String :=
  ["Jan", "Feb", "Mar", "Apr", "May", "Jun", "Jul", "Aug", "Sep", "Oct", "Nov", "Dec"]

/-- A decimal digit as a character. -/
def digit_char (n : Nat) : Char := Char.ofNat (48 + n % 10)

/-- Two digits, zero padded (`%H`, `%M`, `%S`). -/
def two_digits (n : Nat) : List Char := [digit_char (n / 10), digit_char n]

/-- Two characters, space padded (`%e`). -/
def two_digits_space (n : Nat) : List Char :=
  [if n < 10 then ' ' else digit_char (n / 10), digit_char n]

/-- The call `strftime (tmp, sizeof (tmp) - 1, "%b %e %T", ...)`: the text
left in `tmp`. -/
def strftime_b_e_T (t : tm) : List Char :=
  (month_abbrev.getD t.tm_mon "?").toList ++ [' '] ++ two_digits_space t.tm_mday ++ [' ']
  ++ two_digits t.tm_hour ++ [':'] ++ two_digits t.tm_min ++ [':'] ++ two_digits t.tm_sec

/-- The function `ccze_print_date`: the calls it makes (one `CCZE_ADDSTR` in
the date colour); `none` when `gmtime` returns NULL and `strftime` is handed
that NULL. -/
def ccze_print_date (convdate : Int) (date : List Char) : Option (List Event) :=
  if convdate ≠ 0 then
    let ltime := atol date
    if ltime < 0 then some [.CCZE_ADDSTR .CCZE_COLOR_DATE date]
    else
      match gmtime ltime with
      | none => none
      | some t => some [.CCZE_ADDSTR .CCZE_COLOR_DATE (strftime_b_e_T t)]
  else some [.CCZE_ADDSTR .CCZE_COLOR_DATE date]

/-! ## The `plugins` array -/

/-- The call `calloc (n, sizeof (ccze_plugin_t *))`: `n` NULL cells. -/
def calloc {α : Type} (n : Nat) : List (Cell α) := List.replicate n (.val none)

/-- The call `realloc (a, n * sizeof (ccze_plugin_t *))`: the old cells are
kept, the added cells are indeterminate. -/
def realloc {α : Type} (a : List (Cell α)) (n : Nat) : List (Cell α) :=
  a.take n ++ List.replicate (n - a.length) .indeterminate

/-- The loop `while (ccze_config.pluginlist_len-- > 0)` of `main`: loads
`pluginlist[pluginlist_len]` (after the decrement), stores the result (NULL on
failure) at `plugins[plugins_len++]`, and doubles the array when it is full. -/
def load_loop {σ : Type} (env : Env σ) (pluginlist : List String) :
    Nat → List (Cell (ccze_plugin_t σ)) → Nat → Nat → State σ →
    Option (List (Cell (ccze_plugin_t σ)) × State σ)
  | 0, plugins, _, _, s => some (plugins, s)
  | pluginlist_len + 1, plugins, plugins_len, plugins_alloc, s =>
    match pluginlist.get? pluginlist_len with
    | none => none
    | some name =>
      let plugin := env.ccze_plugin_load name
      let s1 := emit env (.ccze_plugin_load name) s
      if plugins_len < plugins.length then
        let plugins1 := plugins.set plugins_len (.val plugin)
        if plugins_len + 1 ≥ plugins_alloc then
          load_loop env pluginlist pluginlist_len (realloc plugins1 (2 * plugins_alloc))
            (plugins_len + 1) (2 * plugins_alloc) s1
        else
          load_loop env pluginlist pluginlist_len plugins1 (plugins_len + 1) plugins_alloc s1
      else none

/-- The part of `main` that fills `plugins`: `ccze_plugin_load_all` when no
`--plugin` was given, the load loop otherwise. -/
def load_plugins {σ : Type} (env : Env σ) (c : ccze_config_t) (s : State σ) :
    Option (List (Cell (ccze_plugin_t σ)) × State σ) :=
  if c.pluginlist_len = 0 then
    some (env.ccze_plugin_load_all, emit env .ccze_plugin_load_all s)
  else
    load_loop env c.pluginlist c.pluginlist_len (calloc 10) 0 10 s

/-- The sequence of plugins a loop `while (plugins[i])` walks through: the
cells before the first NULL; `none` when the walk reads an indeterminate cell
or runs past the end of the array. -/
def registry {α : Type} : List (Cell α) → Option (List α)
  | [] => none
  | .indeterminate :: _ => none
  | .val none :: _ => some []
  | .val (some p) :: cells =>
    match registry cells with
    | none => none
    | some ps => some (p :: ps)

/-! ## Startup, dispatch, main loop -/

/-- The loop `i = 0; while (plugins[i]) (*(plugins[i++]->startup)) ();`.  The
list argument is the array from cell `i` on. -/
def startup_loop {σ : Type} : List (Cell (ccze_plugin_t σ)) → Nat → State σ → Option (State σ)
  | [], _, _ => none
  | .indeterminate :: _, _, _ => none
  | .val none :: _, _, s => some s
  | .val (some p) :: cells, i, s =>
    startup_loop cells (i + 1) { world := p.startup s.world, trace := s.trace ++ [.startup i] }

/-- One handler call `(*(plugins[i]->handler)) (subject, subjlen, &rest)`:
the `int` result, the value of `rest` afterwards, and the state afterwards. -/
def call_handler {σ : Type} (p : ccze_plugin_t σ) (i : Nat) (subject : List Char)
    (subjlen : Nat) (rest : Option (List Char)) (s : State σ) :
    Int × Option (List Char) × State σ :=
  let r := p.handler s.world subject subjlen rest
  (r.1, r.2.1, { world := r.2.2,
                 trace := s.trace ++ [.handler i subject subjlen r.1 r.2.1] })

/-- The dispatch loop of `main`: from `i = 0`, while `plugins[i]` is not NULL,
call the handler of `plugins[i++]`; when the result `handled` is not 0, set
`status = handled` and leave the loop.  Returns `status`, `rest` and the state
after the loop.  The list argument is the array from cell `i` on. -/
def dispatch {σ : Type} : List (Cell (ccze_plugin_t σ)) → Nat → List Char → Nat →
    Option (List Char) → State σ → Option (Int × Option (List Char) × State σ)
  | [], _, _, _, _, _ => none
  | .indeterminate :: _, _, _, _, _, _ => none
  | .val none :: _, _, _, _, rest, s => some (0, rest, s)
  | .val (some p) :: cells, i, subject, subjlen, rest, s =>
    let r := call_handler p i subject subjlen rest s
    if r.1 ≠ 0 then some (r.1, r.2.1, r.2.2)
    else dispatch cells (i + 1) subject subjlen r.2.1 r.2.2

/-- The libc function `strchr (s, c)` on the buffer bytes `s` (the C string
ends at the first NUL byte, or at the end of `s`): index of the first `c`, or
`none` for a NULL result. -/
def strchr (s : List Char) (c : Char) : Option Nat :=
  match s with
  | [] => none
  | x :: xs =>
    if x = c then some 0
    else if x = '\x00' then none
    else (strchr xs c).map (· + 1)

/-- The part of the loop body after the dispatch loop: the `if (rest)` block,
the `if (status == 0)` block, and `refresh ()`. -/
def after_dispatch {σ : Type} (env : Env σ) (c : ccze_config_t) (subject : List Char)
    (status : Int) (rest : Option (List Char)) (s : State σ) : State σ :=
  let s1 :=
    match rest with
    | some r => emits env [.ccze_wordcolor_process r c.wcol c.slookup, .CCZE_NEWLINE, .free_rest] s
    | none => s
  let s2 :=
    if status = 0 then
      emits env [.ccze_wordcolor_process subject c.wcol c.slookup, .CCZE_NEWLINE] s1
    else s1
  emit env .refresh s2

/-- The dispatch cycle for one newline-stripped line `subject`: lines 263 to
296 of `main` without the newline stripping. -/
def process_subject {σ : Type} (env : Env σ) (c : ccze_config_t)
    (plugins : List (Cell (ccze_plugin_t σ))) (subject : List Char) (subjlen : Nat)
    (s : State σ) : Option (State σ) :=
  match dispatch plugins 0 subject subjlen none s with
  | none => none
  | some (status, rest, s1) => some (after_dispatch env c subject status rest s1)

/-- The body of the main loop for the bytes `line` that `getline` returned:
`tmp = strchr (subject, 10); tmp[0] = 0;` and then the dispatch cycle.
`none` when `tmp` is NULL. -/
def loop_body {σ : Type} (env : Env σ) (c : ccze_config_t)
    (plugins : List (Cell (ccze_plugin_t σ))) (line : List Char) (subjlen : Nat)
    (s : State σ) : Option (State σ) :=
  match strchr line '\n' with
  | none => none
  | some k => process_subject env c plugins (line.take k) subjlen s

/-- The successive results of `getline (&subject, &subjlen, stdin)` until it
returns -1: each is the bytes up to and including the next newline; the last
one has no newline when the input does not end with one.  `acc` holds the
bytes of the current line, last first. -/
def getlines_aux : List Char → List Char → List (List Char)
  | acc, [] => if acc = [] then [] else [acc.reverse]
  | acc, x :: xs =>
    if x = '\n' then (x :: acc).reverse :: getlines_aux [] xs
    else getlines_aux (x :: acc) xs

/-- The lines `getline` returns for the input bytes `stdin`. -/
def getlines (stdin : List Char) : List (List Char) := getlines_aux [] stdin

/-- The loop `while (getline (&subject, &subjlen, stdin) != -1)` over the lines
still to be read. -/
def main_loop {σ : Type} (env : Env σ) (c : ccze_config_t)
    (plugins : List (Cell (ccze_plugin_t σ))) : List (List Char) → Nat → State σ →
    Option (State σ)
  | [], _, s => some s
  | line :: lines, subjlen, s =>
    let subjlen1 := env.getline_alloc subjlen (line.length + 1)
    match loop_body env c plugins line subjlen1 s with
    | none => none
    | some s1 => main_loop env c plugins lines subjlen1 s1

/-! ## Teardown -/

/-- The loop of `sigint_handler`: for each plugin up to the first NULL, its
shutdown hook, `free (name)`, `dlclose (dlhandle)`, `free (plugins[i])`. -/
def shutdown_loop {σ : Type} (env : Env σ) :
    List (Cell (ccze_plugin_t σ)) → Nat → State σ → Option (State σ)
  | [], _, _ => none
  | .indeterminate :: _, _, _ => none
  | .val none :: _, _, s => some s
  | .val (some p) :: cells, i, s =>
    shutdown_loop env cells (i + 1)
      (emits env [.free_name i, .dlclose i p.dlhandle, .free_plugin i]
        { world := p.shutdown s.world, trace := s.trace ++ [.shutdown i] })

/-- The function `sigint_handler`, run without interruption. -/
def sigint_handler {σ : Type} (env : Env σ) (plugins : List (Cell (ccze_plugin_t σ)))
    (s : State σ) : Option (State σ) :=
  match shutdown_loop env plugins 0 (emits env [.endwin, .ccze_wordcolor_shutdown] s) with
  | none => none
  | some s1 => some (emits env [.free_plugins, .exit 0] s1)

/-! ## `main` -/

/-- The first part of `main`, up to `ccze_wordcolor_setup ()`: the initial
configuration, `argp_parse`, the curses setup, the colour-rule files.  `none`
when argp rejects the command line (it then exits before anything else is
done). -/
def main_init {σ : Type} (env : Env σ) (argv : List (Int × String)) (w : σ) :
    Option (ccze_config_t × State σ) :=
  match argp_parse argv initial_config with
  | none => none
  | some c =>
    let s0 := emits env (curses_setup c) { world := w, trace := [] }
    let s1 := emits env ((color_files env.SYSCONFDIR c.rcfile env.HOME).map .ccze_color_load) s0
    some (c, emit env .ccze_wordcolor_setup s1)

/-- The last part of `main`, once `plugins` is filled: the startup loop, the
main loop over the lines of standard input, `refresh ()`, `free (subject)`,
`sigint_handler (0)`. -/
def main_run {σ : Type} (env : Env σ) (c : ccze_config_t)
    (plugins : List (Cell (ccze_plugin_t σ))) (stdin : List Char) (s : State σ) :
    Option (State σ) :=
  match startup_loop plugins 0 s with
  | none => none
  | some s1 =>
    match main_loop env c plugins (getlines stdin) 0 s1 with
    | none => none
    | some s2 => sigint_handler env plugins (emits env [.refresh, .free_subject] s2)

/-- The function `main` on the options `argv` (as argp hands them to
`parse_opt`), the bytes of standard input, and the initial world, when no
signal arrives. -/
def main {σ : Type} (env : Env σ) (argv : List (Int × String)) (stdin : List Char)
    (w : σ) : Option (State σ) :=
  match main_init env argv w with
  | none => some { world := w, trace := [.exit 64] }
  | some (c, s) =>
    match load_plugins env c s with
    | none => none
    | some (plugins, s1) => main_run env c plugins stdin s1

/-! ## Teardown as a step machine

`sigint_handler` is installed for SIGINT and is also called directly by `main`
at end of input, so it can be entered again while a teardown is in progress.
It never returns (`exit (0)`), so the interrupted activation never resumes:
the machine keeps only the program point of the current activation. -/

/-- Program points of `sigint_handler`; `test i` is the loop test
`plugins[i]`, `exited` is the state after `exit (0)`. -/
inductive Pc where
  | endwin
  | ccze_wordcolor_shutdown
  | test (i : Nat)
  | call_shutdown (i : Nat)
  | free_name (i : Nat)
  | dlclose (i : Nat)
  | free_plugin (i : Nat)
  | free_plugins
  | exit
  | exited
  deriving DecidableEq, Repr

/-- State of a teardown: program point, execution state, and what has been
released so far (indices of plugins whose name, handle, record was released;
whether the array was). -/
structure Teardown (σ : Type) where
  pc : Pc
  st : State σ
  names_freed : List Nat
  handles_closed : List Nat
  records_freed : List Nat
  array_freed : Bool

/-- The start of a teardown from execution state `s`. -/
def Teardown.start {σ : Type} (s : State σ) : Teardown σ :=
  { pc := .endwin, st := s, names_freed := [], handles_closed := [], records_freed := [],
    array_freed := false }

/-- One statement of `sigint_handler`.  `none`: a read of freed memory (the
array after `free (plugins)`, a plugin record after `free (plugins[i])`), a
second release of the same object, a read of an indeterminate cell, or a step
after `exit`. -/
def Teardown.step {σ : Type} (env : Env σ) (plugins : List (Cell (ccze_plugin_t σ)))
    (m : Teardown σ) : Option (Teardown σ) :=
  match m.pc with
  | .endwin => some { m with pc := .ccze_wordcolor_shutdown, st := emit env .endwin m.st }
  | .ccze_wordcolor_shutdown =>
    some { m with pc := .test 0, st := emit env .ccze_wordcolor_shutdown m.st }
  | .test i =>
    if m.array_freed then none
    else
      match plugins.get? i with
      | some (.val (some _)) => some { m with pc := .call_shutdown i }
      | some (.val none) => some { m with pc := .free_plugins }
      | _ => none
  | .call_shutdown i =>
    if i ∈ m.records_freed then none
    else
      match plugins.get? i with
      | some (.val (some p)) =>
        some { m with pc := .free_name i,
                      st := { world := p.shutdown m.st.world,
                              trace := m.st.trace ++ [.shutdown i] } }
      | _ => none
  | .free_name i =>
    if i ∈ m.records_freed ∨ i ∈ m.names_freed then none
    else some { m with pc := .dlclose i, st := emit env (.free_name i) m.st,
                       names_freed := i :: m.names_freed }
  | .dlclose i =>
    if i ∈ m.records_freed ∨ i ∈ m.handles_closed then none
    else
      match plugins.get? i with
      | some (.val (some p)) =>
        some { m with pc := .free_plugin i, st := emit env (.dlclose i p.dlhandle) m.st,
                      handles_closed := i :: m.handles_closed }
      | _ => none
  | .free_plugin i =>
    if i ∈ m.records_freed then none
    else some { m with pc := .test (i + 1), st := emit env (.free_plugin i) m.st,
                       records_freed := i :: m.records_freed }
  | .free_plugins =>
    if m.array_freed then none
    else some { m with pc := .exit, st := emit env .free_plugins m.st, array_freed := true }
  | .exit => some { m with pc := .exited, st := emit env (.exit 0) m.st }
  | .exited => none

/-- A new entry of `sigint_handler` (SIGINT is delivered, or `shutdownAll` is
called again): a fresh activation starts at its first statement with `i = 0`;
what was released stays released.  Nothing happens after `exit`. -/
def Teardown.enter {σ : Type} (m : Teardown σ) : Teardown σ :=
  if m.pc = .exited then m else { m with pc := .endwin }

/-- What happens next in a teardown: the current activation makes a step, or
the routine is entered again. -/
inductive Action where
  | step
  | enter
  deriving DecidableEq, Repr

/-- Run a schedule of actions. -/
def Teardown.run {σ : Type} (env : Env σ) (plugins : List (Cell (ccze_plugin_t σ))) :
    List Action → Teardown σ → Option (Teardown σ)
  | [], m => some m
  | .step :: as, m =>
    match Teardown.step env plugins m with
    | none => none
    | some m1 => Teardown.run env plugins as m1
  | .enter :: as, m => Teardown.run env plugins as (Teardown.enter m)

/-! ## Derived notions used in the statements -/

/-- The handlers of `ps` called one after the other from index `i`, whatever
they return: the result of each call (`int` result, `rest` afterwards, state
afterwards). -/
def call_all {σ : Type} : List (ccze_plugin_t σ) → Nat → List Char → Nat →
    Option (List Char) → State σ → List (Int × Option (List Char) × State σ)
  | [], _, _, _, _, _ => []
  | p :: ps, i, subject, subjlen, rest, s =>
    let r := call_handler p i subject subjlen rest s
    r :: call_all ps (i + 1) subject subjlen r.2.1 r.2.2

/-- The trace records of handler calls number `i`, `i + 1`, ... with the
results `rs`. -/
def handler_events {σ : Type} (i : Nat) (subject : List Char) (subjlen : Nat)
    (rs : List (Int × Option (List Char) × State σ)) : List Event :=
  (rs.enumFrom i).map (fun jr => Event.handler jr.1 subject subjlen jr.2.1 jr.2.2.1)

/-- The calls of one complete teardown of the plugins `ps`, numbered from
`i`. -/
def shutdown_events {σ : Type} : List (ccze_plugin_t σ) → Nat → List Event
  | [], _ => []
  | p :: ps, i =>
    [.shutdown i, .free_name i, .dlclose i p.dlhandle, .free_plugin i]
    ++ shutdown_events ps (i + 1)

/-- A plugin for concrete runs: its hooks leave the world alone, its handler
returns `status` and sets `rest` to `leftover`. -/
def sample_plugin (name : String) (status : Int) (leftover : Option (List Char)) :
    ccze_plugin_t Unit :=
  { name := name, dlhandle := 0, startup := id, shutdown := id,
    handler := fun w _ _ _ => (status, leftover, w) }

/-- An environment for concrete runs: the loader knows the plugins of
`known` by name; `getline` allocates 120 bytes or what the line needs. -/
def sample_env (known : List (ccze_plugin_t Unit)) : Env Unit :=
  { SYSCONFDIR := "/etc", HOME := some "/root",
    ccze_plugin_load := fun n => known.find? (fun p => p.name = n),
    ccze_plugin_load_all := [.val none],
    getline_alloc := fun old need => max (max old need) 120,
    ext := fun _ w => w }

/-- The plugin index of a handler call record. -/
def handler_index : Event → Option Nat
  | .handler i _ _ _ _ => some i
  | _ => none

/-- An array for concrete runs: `a` declines, `b` claims with status 5 and a
leftover, `c` would claim with status 7. -/
def sample_plugins : List (Cell (ccze_plugin_t Unit)) :=
  [.val (some (sample_plugin "a" 0 none)), .val (some (sample_plugin "b" 5 (some ['x']))),
   .val (some (sample_plugin "c" 7 none)), .val none]

/-- The path of a `ccze_color_load` call record. -/
def color_load_path : Event → Option String
  | .ccze_color_load path => some path
  | _ => none

/-- The argument of the last `--rcfile` option (key `'F'` = 70) on the
command line, if there is one. -/
def rcfile_option : List (Int × String) → Option String
  | [] => none
  | (key, arg) :: opts =>
    match rcfile_option opts with
    | some f => some f
    | none => if key = 70 then some arg else none

/-- The arguments of the `--plugin` options (key `'p'` = 112), in
command-line order. -/
def plugin_options (argv : List (Int × String)) : List String :=
  argv.filterMap (fun o => if o.1 = 112 then some o.2 else none)

/-- The calls into plugin hooks (startup, handler, shutdown). -/
def is_hook : Event → Bool
  | .startup _ => true
  | .handler _ _ _ _ _ => true
  | .shutdown _ => true
  | _ => false


/-- The handler contract of the specification (4.2): a handler reports
either *not claimed* or *claimed* with an optional leftover, so a handler that
declines (returns 0) leaves `rest` as it found it. -/
def obeys_contract {σ : Type} (p : ccze_plugin_t σ) : Prop :=
  ∀ (w : σ) (subject : List Char) (subjlen : Nat) (rest : Option (List Char)),
    (p.handler w subject subjlen rest).1 = 0 →
    (p.handler w subject subjlen rest).2.1 = rest

/-! ## Dispatch: first match wins -/

theorem registry_cons_some {α : Type} (p : α) (cells : List (Cell α)) (ps : List α)
    (h : registry (Cell.val (some p) :: cells) = some ps) :
    ∃ ps1, ps = p :: ps1 ∧ registry cells = some ps1 := by
  simp only [registry] at h
  cases hr : registry cells with
  | none => simp [hr] at h
  | some ps1 => simp [hr] at h; exact ⟨ps1, h.symm, rfl⟩

theorem handler_events_cons {σ : Type} (i : Nat) (subject : List Char) (subjlen : Nat)
    (r : Int × Option (List Char) × State σ) (rs : List (Int × Option (List Char) × State σ)) :
    handler_events i subject subjlen (r :: rs)
      = Event.handler i subject subjlen r.1 r.2.1 :: handler_events (i + 1) subject subjlen rs := by
  simp [handler_events, List.enumFrom]

theorem call_handler_trace {σ : Type} (p : ccze_plugin_t σ) (i : Nat) (subject : List Char)
    (subjlen : Nat) (rest : Option (List Char)) (s : State σ) :
    (call_handler p i subject subjlen rest s).2.2.trace
      = s.trace ++ [Event.handler i subject subjlen
          (call_handler p i subject subjlen rest s).1
          (call_handler p i subject subjlen rest s).2.1] := by
  simp [call_handler]

/-- The dispatch loop from cell `i`: it calls the handlers of a prefix of the
registry, all of which but the last return 0; it stops before the end of the
registry only at a handler that returns non-zero; what it returns is what the
last handler called returned. -/
theorem dispatch_spec {σ : Type} (subject : List Char) (subjlen : Nat) :
    ∀ (plugins : List (Cell (ccze_plugin_t σ))) (ps : List (ccze_plugin_t σ)) (i : Nat)
      (rest : Option (List Char)) (s : State σ),
      registry plugins = some ps →
      ∃ m, m ≤ ps.length ∧
        (∀ r ∈ ((call_all ps i subject subjlen rest s).take m).dropLast, r.1 = 0) ∧
        (m < ps.length →
          ∃ r, ((call_all ps i subject subjlen rest s).take m).getLast? = some r ∧ r.1 ≠ 0) ∧
        dispatch plugins i subject subjlen rest s
          = some ((((call_all ps i subject subjlen rest s).take m).getLast?).getD (0, rest, s)) ∧
        ((((call_all ps i subject subjlen rest s).take m).getLast?).getD (0, rest, s)).2.2.trace
          = s.trace
            ++ handler_events i subject subjlen ((call_all ps i subject subjlen rest s).take m) := by
  intro plugins
  induction plugins with
  | nil => intro ps i rest s h; simp [registry] at h
  | cons c cells ih =>
    intro ps i rest s h
    match c, h with
    | .indeterminate, h => simp [registry] at h
    | .val none, h =>
      simp only [registry, Option.some.injEq] at h
      subst h
      refine ⟨0, Nat.le_refl _, ?_, ?_, ?_, ?_⟩
      · intro r hr; simp at hr
      · intro hlt; simp at hlt
      · simp [dispatch]
      · simp [handler_events]
    | .val (some p), h =>
      obtain ⟨ps1, rfl, h1⟩ := registry_cons_some p cells ps h
      have htr0 := call_handler_trace p i subject subjlen rest s
      generalize hr0 : call_handler p i subject subjlen rest s = r0 at htr0
      by_cases hc : r0.1 = 0
      · obtain ⟨m, hm, hzero, hstop, hres, htr⟩ := ih ps1 (i + 1) r0.2.1 r0.2.2 h1
        have hd : dispatch (Cell.val (some p) :: cells) i subject subjlen rest s
            = dispatch cells (i + 1) subject subjlen r0.2.1 r0.2.2 := by
          simp only [dispatch, hr0]
          rw [if_neg (by simpa using hc)]
        have hca : call_all (p :: ps1) i subject subjlen rest s
            = r0 :: call_all ps1 (i + 1) subject subjlen r0.2.1 r0.2.2 := by
          simp only [call_all, hr0]
        rw [hd, hca]
        refine ⟨m + 1, by simpa using hm, ?_⟩
        have hlen : (m + 1 < (p :: ps1).length) = (m < ps1.length) := by simp
        rw [hlen]
        simp only [List.take_succ_cons]
        generalize (call_all ps1 (i + 1) subject subjlen r0.2.1 r0.2.2).take m = l at *
        refine ⟨?_, ?_, ?_, ?_⟩
        · intro r hr
          cases l with
          | nil => simp at hr
          | cons x xs =>
            rw [List.dropLast_cons₂] at hr
            rcases List.mem_cons.1 hr with h0 | h0
            · rw [h0]; exact hc
            · exact hzero r h0
        · intro hlt1
          obtain ⟨r, hr, hr0⟩ := hstop hlt1
          refine ⟨r, ?_, hr0⟩
          cases l with
          | nil => simp at hr
          | cons x xs => simpa [List.getLast?_cons_cons] using hr
        · rw [hres]
          cases l with
          | nil =>
            simp only [List.getLast?_nil, Option.getD_none, List.getLast?_singleton,
              Option.getD_some]
            congr 1
            exact Prod.ext hc.symm rfl
          | cons x xs =>
            obtain ⟨y, hy⟩ : ∃ y, (x :: xs).getLast? = some y :=
              ⟨_, List.getLast?_eq_getLast _ (by simp)⟩
            simp [List.getLast?_cons_cons, hy]
        · simp only [handler_events_cons]
          cases l with
          | nil =>
            simp only [List.getLast?_singleton, Option.getD_some, handler_events, List.enumFrom,
              List.map_nil]
            exact htr0
          | cons x xs =>
            obtain ⟨y, hy⟩ : ∃ y, (x :: xs).getLast? = some y :=
              ⟨_, List.getLast?_eq_getLast _ (by simp)⟩
            rw [hy] at htr
            simp only [List.getLast?_cons_cons, hy, Option.getD_some] at htr ⊢
            rw [htr, htr0]
            simp
      · have hd : dispatch (Cell.val (some p) :: cells) i subject subjlen rest s = some r0 := by
          simp only [dispatch, hr0]
          rw [if_pos (by simpa using hc)]
        have hca : call_all (p :: ps1) i subject subjlen rest s
            = r0 :: call_all ps1 (i + 1) subject subjlen r0.2.1 r0.2.2 := by
          simp only [call_all, hr0]
        rw [hd, hca]
        refine ⟨1, by simp, ?_, ?_, ?_, ?_⟩
        · simp
        · intro _
          exact ⟨r0, by simp, hc⟩
        · simp
        · simp only [List.take_succ_cons, List.take_zero, List.getLast?_singleton,
            Option.getD_some, handler_events_cons]
          rw [htr0]
          simp [handler_events]


theorem call_all_length {σ : Type} (subject : List Char) (subjlen : Nat) :
    ∀ (ps : List (ccze_plugin_t σ)) (i : Nat) (rest : Option (List Char)) (s : State σ),
      (call_all ps i subject subjlen rest s).length = ps.length := by
  intro ps
  induction ps with
  | nil => intro i rest s; rfl
  | cons p ps ih => intro i rest s; simp [call_all, ih]

theorem handler_events_index {σ : Type} (subject : List Char) (subjlen : Nat) :
    ∀ (rs : List (Int × Option (List Char) × State σ)) (i : Nat),
      (handler_events i subject subjlen rs).filterMap handler_index = List.range' i rs.length := by
  intro rs
  induction rs with
  | nil => intro i; simp [handler_events]
  | cons r rs ih =>
    intro i
    rw [handler_events_cons, List.filterMap_cons]
    simp [handler_index, ih, List.range']

/-- C1. First match wins: for every line and every registry, the dispatch loop
calls the handlers of the plugins 0, 1, ..., m - 1 in this order, each once
(`m` at most the size of the registry); every handler called before the last
one returned 0; the loop stops before the end of the registry only at a
handler that returned non-zero, so no handler registered after the first
claiming one is called; and the status and leftover used afterwards are those
returned by the last handler called (status 0 and no leftover when the
registry is empty). -/
theorem C1_first_match_wins {σ : Type} (plugins : List (Cell (ccze_plugin_t σ)))
    (ps : List (ccze_plugin_t σ)) (subject : List Char) (subjlen : Nat) (s : State σ)
    (h : registry plugins = some ps) :
    ∃ m, m ≤ ps.length ∧
      (∀ r ∈ ((call_all ps 0 subject subjlen none s).take m).dropLast, r.1 = 0) ∧
      (m < ps.length →
        ∃ r, ((call_all ps 0 subject subjlen none s).take m).getLast? = some r ∧ r.1 ≠ 0) ∧
      dispatch plugins 0 subject subjlen none s
        = some ((((call_all ps 0 subject subjlen none s).take m).getLast?).getD (0, none, s)) ∧
      ((((call_all ps 0 subject subjlen none s).take m).getLast?).getD (0, none, s)).2.2.trace
        = s.trace ++ handler_events 0 subject subjlen ((call_all ps 0 subject subjlen none s).take m) ∧
      (handler_events 0 subject subjlen
        ((call_all ps 0 subject subjlen none s).take m)).filterMap handler_index = List.range m := by
  obtain ⟨m, hm, h1, h2, h3, h4⟩ := dispatch_spec subject subjlen plugins ps 0 none s h
  refine ⟨m, hm, h1, h2, h3, h4, ?_⟩
  rw [handler_events_index, List.length_take, call_all_length, Nat.min_eq_left hm,
    List.range_eq_range']

/-- C1 at a concrete array: `a` declines, `b` claims, `c` is not called. -/
theorem C1_first_match_wins_witness :
    (∃ m, m ≤ 3 ∧
      (∀ r ∈ ((call_all [sample_plugin "a" 0 none, sample_plugin "b" 5 (some ['x']),
          sample_plugin "c" 7 none] 0 ['h', 'i'] 120 none ⟨(), []⟩).take m).dropLast, r.1 = 0) ∧
      (m < 3 →
        ∃ r, ((call_all [sample_plugin "a" 0 none, sample_plugin "b" 5 (some ['x']),
          sample_plugin "c" 7 none] 0 ['h', 'i'] 120 none ⟨(), []⟩).take m).getLast? = some r
          ∧ r.1 ≠ 0) ∧
      dispatch sample_plugins 0 ['h', 'i'] 120 none ⟨(), []⟩
        = some ((((call_all [sample_plugin "a" 0 none, sample_plugin "b" 5 (some ['x']),
          sample_plugin "c" 7 none] 0 ['h', 'i'] 120 none ⟨(), []⟩).take m).getLast?).getD
            (0, none, ⟨(), []⟩)) ∧
      ((((call_all [sample_plugin "a" 0 none, sample_plugin "b" 5 (some ['x']),
          sample_plugin "c" 7 none] 0 ['h', 'i'] 120 none ⟨(), []⟩).take m).getLast?).getD
            (0, none, ⟨(), []⟩)).2.2.trace
        = [] ++ handler_events 0 ['h', 'i'] 120
            ((call_all [sample_plugin "a" 0 none, sample_plugin "b" 5 (some ['x']),
              sample_plugin "c" 7 none] 0 ['h', 'i'] 120 none ⟨(), []⟩).take m) ∧
      (handler_events 0 ['h', 'i'] 120
        ((call_all [sample_plugin "a" 0 none, sample_plugin "b" 5 (some ['x']),
          sample_plugin "c" 7 none] 0 ['h', 'i'] 120 none ⟨(), []⟩).take m)).filterMap
            handler_index = List.range m)
    ∧ (dispatch sample_plugins 0 ['h', 'i'] 120 none ⟨(), []⟩).map
        (fun r => (r.1, r.2.1, r.2.2.trace))
      = some (5, some ['x'], [Event.handler 0 ['h', 'i'] 120 0 none,
          Event.handler 1 ['h', 'i'] 120 5 (some ['x'])]) :=
  ⟨C1_first_match_wins sample_plugins [sample_plugin "a" 0 none,
      sample_plugin "b" 5 (some ['x']), sample_plugin "c" 7 none] ['h', 'i'] 120 ⟨(), []⟩ rfl,
    by decide⟩


/-! ## The dispatch cycle of one line -/

theorem emit_trace {σ : Type} (env : Env σ) (e : Event) (s : State σ) :
    (emit env e s).trace = s.trace ++ [e] := rfl

theorem emits_trace {σ : Type} (env : Env σ) :
    ∀ (es : List Event) (s : State σ), (emits env es s).trace = s.trace ++ es := by
  intro es
  induction es with
  | nil => intro s; simp [emits]
  | cons e es ih => intro s; simp [emits, ih, emit_trace]

theorem after_dispatch_trace {σ : Type} (env : Env σ) (c : ccze_config_t) (subject : List Char)
    (status : Int) (rest : Option (List Char)) (s : State σ) :
    (after_dispatch env c subject status rest s).trace
      = s.trace
        ++ (match rest with
            | some r => [Event.ccze_wordcolor_process r c.wcol c.slookup, .CCZE_NEWLINE, .free_rest]
            | none => [])
        ++ (if status = 0 then
              [Event.ccze_wordcolor_process subject c.wcol c.slookup, .CCZE_NEWLINE]
            else [])
        ++ [.refresh] := by
  unfold after_dispatch
  cases rest <;> by_cases h : status = 0 <;> simp [h, emit_trace, emits_trace]

/-- C6 as stated fails: a plugin claims the line `hi` and leaves no leftover;
the core then emits no newline at all for the line (the only calls are the
handler call and `refresh`). -/
theorem C6_counterexample :
    (process_subject (sample_env []) initial_config
        [.val (some (sample_plugin "b" 5 none)), .val none] ['h', 'i'] 120 ⟨(), []⟩).map
        (fun s => s.trace)
      = some [Event.handler 0 ['h', 'i'] 120 5 none, Event.refresh]
    ∧ ((process_subject (sample_env []) initial_config
        [.val (some (sample_plugin "b" 5 none)), .val none] ['h', 'i'] 120 ⟨(), []⟩).map
        (fun s => s.trace.count Event.CCZE_NEWLINE)) ≠ some 1 := by
  decide

/-- C6, amended.  For every line that some plugin claims (the dispatch loop
ends with a non-zero status), what the core does for the line after the
handler calls is: when the leftover `rest` is not NULL, the word-colouring pass
on the leftover, one newline and the release of the leftover, then `refresh`;
when `rest` is NULL, `refresh` alone, with no newline. -/
theorem C6_claimed_line_output {σ : Type} (env : Env σ) (c : ccze_config_t)
    (plugins : List (Cell (ccze_plugin_t σ))) (subject : List Char) (subjlen : Nat)
    (s s1 : State σ) (status : Int) (rest : Option (List Char))
    (hd : dispatch plugins 0 subject subjlen none s = some (status, rest, s1))
    (hclaim : status ≠ 0) :
    ∃ s2, process_subject env c plugins subject subjlen s = some s2 ∧
      s2.trace = s1.trace
        ++ (match rest with
            | some r => [Event.ccze_wordcolor_process r c.wcol c.slookup, .CCZE_NEWLINE, .free_rest]
            | none => [])
        ++ [.refresh] := by
  refine ⟨after_dispatch env c subject status rest s1, ?_, ?_⟩
  · simp [process_subject, hd]
  · rw [after_dispatch_trace, if_neg hclaim]
    simp

/-- C6 (amended) at the sample array, where `b` claims with the leftover `x`. -/
theorem C6_claimed_line_output_witness :
    ∃ s2, process_subject (sample_env []) initial_config sample_plugins ['h', 'i'] 120 ⟨(), []⟩
        = some s2 ∧
      s2.trace = [Event.handler 0 ['h', 'i'] 120 0 none, Event.handler 1 ['h', 'i'] 120 5 (some ['x'])]
        ++ [Event.ccze_wordcolor_process ['x'] 1 1, .CCZE_NEWLINE, .free_rest]
        ++ [.refresh] :=
  C6_claimed_line_output (sample_env []) initial_config sample_plugins ['h', 'i'] 120 ⟨(), []⟩
    ⟨(), [Event.handler 0 ['h', 'i'] 120 0 none, Event.handler 1 ['h', 'i'] 120 5 (some ['x'])]⟩
    5 (some ['x']) rfl (by decide)

/-! ## Unmatched lines -/

theorem strchr_newline_terminated :
    ∀ (l : List Char), '\n' ∉ l → '\x00' ∉ l → strchr (l ++ ['\n']) '\n' = some l.length := by
  intro l
  induction l with
  | nil => intro _ _; simp [strchr]
  | cons x xs ih =>
    intro h1 h2
    simp only [List.mem_cons, not_or] at h1 h2
    have hx1 : x ≠ '\n' := fun h => h1.1 h.symm
    have hx2 : x ≠ '\x00' := fun h => h2.1 h.symm
    simp [strchr, hx1, hx2, ih h1.2 h2.2]

theorem getlines_aux_line (l : List Char) (h : '\n' ∉ l) (tail : List Char) :
    ∀ acc, getlines_aux acc (l ++ '\n' :: tail)
      = (acc.reverse ++ l ++ ['\n']) :: getlines_aux [] tail := by
  induction l with
  | nil => intro acc; simp [getlines_aux]
  | cons x xs ih =>
    intro acc
    simp only [List.mem_cons, not_or] at h
    have hx1 : x ≠ '\n' := fun e => h.1 e.symm
    simp [getlines_aux, hx1, ih h.2]

theorem getlines_terminated :
    ∀ (lines : List (List Char)), (∀ l ∈ lines, '\n' ∉ l) →
      getlines (lines.flatMap (fun l => l ++ ['\n'])) = lines.map (fun l => l ++ ['\n']) := by
  intro lines
  induction lines with
  | nil => intro _; simp [getlines, getlines_aux]
  | cons l ls ih =>
    intro h
    have hl := h l (List.mem_cons_self _ _)
    have hls : ∀ l ∈ ls, '\n' ∉ l := fun x hx => h x (List.mem_cons_of_mem _ hx)
    simp only [List.flatMap_cons, List.map_cons, getlines, List.append_assoc,
      List.singleton_append]
    rw [getlines_aux_line l hl]
    have := ih hls
    simp only [getlines] at this
    simp [this]

theorem main_loop_empty_registry {σ : Type} (env : Env σ) (c : ccze_config_t)
    (cells : List (Cell (ccze_plugin_t σ))) :
    ∀ (lines : List (List Char)) (subjlen : Nat) (s : State σ),
      (∀ l ∈ lines, '\n' ∉ l ∧ '\x00' ∉ l) →
      ∃ s1, main_loop env c (.val none :: cells) (lines.map (fun l => l ++ ['\n'])) subjlen s
          = some s1 ∧
        s1.trace = s.trace ++ lines.flatMap (fun l =>
          [Event.ccze_wordcolor_process l c.wcol c.slookup, .CCZE_NEWLINE, .refresh]) := by
  intro lines
  induction lines with
  | nil => intro subjlen s _; exact ⟨s, by simp [main_loop], by simp⟩
  | cons l ls ih =>
    intro subjlen s h
    have hl := h l (List.mem_cons_self _ _)
    have hls : ∀ l ∈ ls, '\n' ∉ l ∧ '\x00' ∉ l := fun x hx => h x (List.mem_cons_of_mem _ hx)
    simp only [List.map_cons, main_loop, loop_body, strchr_newline_terminated l hl.1 hl.2,
      List.take_left', process_subject, dispatch]
    obtain ⟨s1, h1, h2⟩ := ih (env.getline_alloc subjlen ((l ++ ['\n']).length + 1))
      (after_dispatch env c l 0 none s) hls
    refine ⟨s1, h1, ?_⟩
    rw [h2, after_dispatch_trace]
    simp

/-- A handler that returns 0 and yet stores a leftover through `rest`, which
the handler contract excludes: the core colours the leftover and then the
whole line, with two newlines.  This is why `unmatched_fallback_contract`
assumes the contract. -/
theorem declining_handler_with_leftover :
    (process_subject (sample_env []) initial_config
        [.val (some (sample_plugin "a" 0 (some ['x']))), .val none] ['h', 'i'] 120 ⟨(), []⟩).map
        (fun s => s.trace)
      = some [Event.handler 0 ['h', 'i'] 120 0 (some ['x']),
          Event.ccze_wordcolor_process ['x'] 1 1, Event.CCZE_NEWLINE, Event.free_rest,
          Event.ccze_wordcolor_process ['h', 'i'] 1 1, Event.CCZE_NEWLINE, Event.refresh]
    ∧ ¬ obeys_contract (sample_plugin "a" 0 (some ['x'])) := by
  refine ⟨by decide, ?_⟩
  intro h
  have := h () [] 0 none rfl
  simp [sample_plugin] at this

/-- When every handler keeps the contract, a dispatch loop that ends with
status 0 leaves `rest` as it was before the loop. -/
theorem dispatch_declined_rest {σ : Type} (subject : List Char) (subjlen : Nat) :
    ∀ (cells : List (Cell (ccze_plugin_t σ))) (ps : List (ccze_plugin_t σ)) (i : Nat)
      (rest r : Option (List Char)) (s s1 : State σ),
      registry cells = some ps → (∀ p ∈ ps, obeys_contract p) →
      dispatch cells i subject subjlen rest s = some (0, r, s1) → r = rest := by
  intro cells
  induction cells with
  | nil => intro ps i rest r s s1 h; simp [registry] at h
  | cons c cells ih =>
    intro ps i rest r s s1 h hc hd
    match c, h with
    | .indeterminate, h => simp [registry] at h
    | .val none, h =>
      simp only [dispatch, Option.some.injEq, Prod.mk.injEq] at hd
      exact hd.2.1.symm
    | .val (some p), h =>
      obtain ⟨ps1, rfl, h1⟩ := registry_cons_some p cells ps h
      have hp := hc p (List.mem_cons_self _ _) s.world subject subjlen rest
      simp only [dispatch] at hd
      by_cases h0 : (call_handler p i subject subjlen rest s).1 = 0
      · rw [if_neg (by simpa using h0)] at hd
        have hr := ih ps1 (i + 1) _ r _ s1 h1
          (fun q hq => hc q (List.mem_cons_of_mem _ hq)) hd
        rw [hr]
        exact hp h0
      · rw [if_pos (by simpa using h0)] at hd
        simp only [Option.some.injEq, Prod.mk.injEq] at hd
        exact absurd hd.1 h0

/-- Unmatched-line fallback on a stripped line.  For every newline-stripped
line and every registry for which the dispatch loop ends with status 0 and a
NULL leftover, the core calls the word-colouring pass exactly once, on the
entire line with the configured `wcol` and `slookup`, then emits exactly one
newline, then `refresh`; `n` newline-terminated lines (without NUL bytes)
through an empty registry give `n` word-colouring calls and `n` newlines, in
input order. -/
theorem unmatched_fallback {σ : Type} (env : Env σ) (c : ccze_config_t) :
    (∀ (plugins : List (Cell (ccze_plugin_t σ))) (subject : List Char) (subjlen : Nat)
        (s s1 : State σ),
        dispatch plugins 0 subject subjlen none s = some (0, none, s1) →
        ∃ s2, process_subject env c plugins subject subjlen s = some s2 ∧
          s2.trace = s1.trace
            ++ [Event.ccze_wordcolor_process subject c.wcol c.slookup, .CCZE_NEWLINE, .refresh])
    ∧ (∀ (cells : List (Cell (ccze_plugin_t σ))) (lines : List (List Char)) (s : State σ),
        (∀ l ∈ lines, '\n' ∉ l ∧ '\x00' ∉ l) →
        ∃ s1, main_loop env c (.val none :: cells)
            (getlines (lines.flatMap (fun l => l ++ ['\n']))) 0 s = some s1 ∧
          s1.trace = s.trace ++ lines.flatMap (fun l =>
            [Event.ccze_wordcolor_process l c.wcol c.slookup, .CCZE_NEWLINE, .refresh])) := by
  constructor
  · intro plugins subject subjlen s s1 hd
    refine ⟨after_dispatch env c subject 0 none s1, by simp [process_subject, hd], ?_⟩
    rw [after_dispatch_trace]
    simp
  · intro cells lines s h
    rw [getlines_terminated lines (fun l hl => (h l hl).1)]
    exact main_loop_empty_registry env c cells lines 0 s h

/-- The two lines of the end-to-end example of the specification, each with
its newline, through a registry without plugins. -/
theorem unmatched_fallback_example :
    (∃ s2, process_subject (sample_env []) initial_config [.val none] "2024 test".toList 120
        ⟨(), []⟩ = some s2 ∧
      s2.trace = [] ++ [Event.ccze_wordcolor_process "2024 test".toList 1 1, .CCZE_NEWLINE,
        .refresh])
    ∧ (∃ s1, main_loop (sample_env []) initial_config [.val none]
          (getlines (["2024 test".toList, "GET /index.html HTTP/1.1".toList].flatMap
            (fun l => l ++ ['\n']))) 0 ⟨(), []⟩ = some s1 ∧
        s1.trace = [] ++ ["2024 test".toList, "GET /index.html HTTP/1.1".toList].flatMap (fun l =>
          [Event.ccze_wordcolor_process l 1 1, .CCZE_NEWLINE, .refresh])) :=
  ⟨(unmatched_fallback (sample_env []) initial_config).1 [.val none] "2024 test".toList 120
      ⟨(), []⟩ ⟨(), []⟩ rfl,
   (unmatched_fallback (sample_env []) initial_config).2 []
      ["2024 test".toList, "GET /index.html HTTP/1.1".toList] ⟨(), []⟩ (by decide)⟩

/-- Unmatched-line fallback under the handler contract.  For every well-formed
registry whose handlers keep the contract, every newline-stripped line and
every state: the dispatch cycle has a defined outcome, and when no handler
claims the line (the dispatch loop ends with status 0) the core calls the
word-colouring pass exactly once after the handler calls, on the entire line
with the configured `wcol` and `slookup`, followed by exactly one newline and
`refresh`. -/
theorem unmatched_fallback_contract {σ : Type} (env : Env σ) (c : ccze_config_t)
    (plugins : List (Cell (ccze_plugin_t σ))) (ps : List (ccze_plugin_t σ))
    (subject : List Char) (subjlen : Nat) (s : State σ)
    (h : registry plugins = some ps) (hc : ∀ p ∈ ps, obeys_contract p) :
    ∃ status rest s1 s2, dispatch plugins 0 subject subjlen none s = some (status, rest, s1) ∧
      process_subject env c plugins subject subjlen s = some s2 ∧
      (status = 0 →
        s2.trace = s1.trace
          ++ [Event.ccze_wordcolor_process subject c.wcol c.slookup, .CCZE_NEWLINE, .refresh]
        ∧ (s2.trace.drop s1.trace.length).count
            (Event.ccze_wordcolor_process subject c.wcol c.slookup) = 1
        ∧ (s2.trace.drop s1.trace.length).count Event.CCZE_NEWLINE = 1) := by
  obtain ⟨m, _, _, _, hd, _⟩ := dispatch_spec subject subjlen plugins ps 0 none s h
  generalize (((call_all ps 0 subject subjlen none s).take m).getLast?).getD (0, none, s) = r
    at hd
  obtain ⟨status, rest, s1⟩ := r
  refine ⟨status, rest, s1, after_dispatch env c subject status rest s1, hd,
    by simp only [process_subject, hd], ?_⟩
  intro h0
  subst h0
  have hrest := dispatch_declined_rest subject subjlen plugins ps 0 none rest s s1 h hc hd
  subst hrest
  have htr : (after_dispatch env c subject 0 none s1).trace = s1.trace
      ++ [Event.ccze_wordcolor_process subject c.wcol c.slookup, .CCZE_NEWLINE, .refresh] := by
    rw [after_dispatch_trace]; simp
  refine ⟨htr, ?_, ?_⟩
  · rw [htr, List.drop_left]
    simp [List.count_cons]
  · rw [htr, List.drop_left]
    simp [List.count_cons]

/-- C7: the code at the two lines of the end-to-end example of the
specification, through a registry without plugins, when the last line has no
newline.  With both newlines, each line gets one word-colouring call and one
newline.  Without the last newline, `getline` returns `GET /index.html
HTTP/1.1` as it is, `strchr` returns NULL and `main` writes through it: the
second line gets no word-colouring call and no newline, and the run has no
defined outcome.  No handler claims that line, so the claim fails there. -/
theorem C7_unterminated_line_no_fallback :
    (main_loop (sample_env []) initial_config [.val none]
        (getlines "2024 test\nGET /index.html HTTP/1.1\n".toList) 0 ⟨(), []⟩).map
        (fun s => s.trace)
      = some [Event.ccze_wordcolor_process "2024 test".toList 1 1, Event.CCZE_NEWLINE,
          Event.refresh,
          Event.ccze_wordcolor_process "GET /index.html HTTP/1.1".toList 1 1,
          Event.CCZE_NEWLINE, Event.refresh]
    ∧ getlines "2024 test\nGET /index.html HTTP/1.1".toList
      = ["2024 test\n".toList, "GET /index.html HTTP/1.1".toList]
    ∧ strchr "GET /index.html HTTP/1.1".toList '\n' = none
    ∧ (loop_body (sample_env []) initial_config [.val none]
        "GET /index.html HTTP/1.1".toList 120 ⟨(), []⟩).isNone = true
    ∧ (main_loop (sample_env []) initial_config [.val none]
        (getlines "2024 test\nGET /index.html HTTP/1.1".toList) 0 ⟨(), []⟩).isNone = true
    ∧ (main (sample_env []) [] "2024 test\nGET /index.html HTTP/1.1".toList ()).isNone
      = true := by
  decide


/-! ## The colour-rule cascade -/

theorem parse_opt_rcfile (key : Int) (arg : String) (c : ccze_config_t) :
    (parse_opt key arg c).2.rcfile = if key = 70 then some arg else c.rcfile := by
  unfold parse_opt
  by_cases h112 : key = 112
  · have h70 : key ≠ 70 := by omega
    simp only [h112, if_true]
    split_ifs <;> simp_all
  · simp only [h112, if_false]
    split_ifs <;> simp_all

theorem argp_parse_rcfile :
    ∀ (argv : List (Int × String)) (c0 c : ccze_config_t), argp_parse argv c0 = some c →
      c.rcfile = (rcfile_option argv).or c0.rcfile := by
  intro argv
  induction argv with
  | nil => intro c0 c h; simp [argp_parse] at h; simp [rcfile_option, h]
  | cons o opts ih =>
    intro c0 c h
    obtain ⟨key, arg⟩ := o
    simp only [argp_parse] at h
    split_ifs at h with h0
    rw [ih _ c h, parse_opt_rcfile, rcfile_option]
    cases rcfile_option opts with
    | some f => simp
    | none => by_cases hk : key = 70 <;> simp [hk]

theorem curses_setup_no_color_load (c : ccze_config_t) :
    (curses_setup c).filterMap color_load_path = [] := by
  rw [List.filterMap_eq_nil_iff]
  intro e he
  simp only [curses_setup, List.mem_append, List.mem_flatten, List.mem_map,
    List.mem_range] at he
  rcases he with (((he | he) | he) | he) | he
  · simp at he; rcases he with rfl | rfl | rfl | rfl <;> rfl
  · split_ifs at he
    · simp at he; rcases he with rfl | rfl | rfl <;> rfl
    · simp at he
  · simp at he; subst he; rfl
  · obtain ⟨l, ⟨i, _, rfl⟩, he⟩ := he
    simp at he
    obtain ⟨j, _, rfl⟩ := he
    rfl
  · simp at he; subst he; rfl

theorem filterMap_color_load (files : List String) :
    (files.map Event.ccze_color_load).filterMap color_load_path = files := by
  induction files with
  | nil => rfl
  | cons f fs ih => simp [color_load_path, ih]

/-- C3 as stated fails: with `--rcfile my.rc` the only file passed to
`ccze_color_load` is `my.rc`; the two system-wide files are not loaded. -/
theorem C3_counterexample :
    (main_init (sample_env []) [(70, "my.rc")] ()).map
        (fun r => r.2.trace.filterMap color_load_path) = some ["my.rc"]
    ∧ (main_init (sample_env []) [(70, "my.rc")] ()).map
        (fun r => r.2.trace.filterMap color_load_path)
      ≠ some ["/etc/colorizerc", "/etc/cczerc", "my.rc"] := by
  decide

/-- C3, amended.  For every command line that argp accepts, the files `main`
passes to `ccze_color_load` are, in order: with `--rcfile FILE` (the last one
given), `FILE` alone, the system-wide files not being loaded; without
`--rcfile`, `SYSCONFDIR/colorizerc`, then `SYSCONFDIR/cczerc`, then, when
`HOME` is set, `$HOME/.colorizerc` and `$HOME/.cczerc`. -/
theorem C3_color_cascade {σ : Type} (env : Env σ) (argv : List (Int × String)) (w : σ)
    (c : ccze_config_t) (h : argp_parse argv initial_config = some c) :
    ∃ s, main_init env argv w = some (c, s) ∧
      s.trace.filterMap color_load_path
        = (match rcfile_option argv with
           | some f => [f]
           | none =>
             [env.SYSCONFDIR ++ "/colorizerc", env.SYSCONFDIR ++ "/cczerc"]
             ++ (match env.HOME with
                 | some home => [home ++ "/.colorizerc", home ++ "/.cczerc"]
                 | none => [])) := by
  refine ⟨emit env .ccze_wordcolor_setup
      (emits env ((color_files env.SYSCONFDIR c.rcfile env.HOME).map .ccze_color_load)
        (emits env (curses_setup c) { world := w, trace := [] })),
    by simp only [main_init, h], ?_⟩
  have hrc : c.rcfile = rcfile_option argv := by
    rw [argp_parse_rcfile argv _ c h]; simp [initial_config]
  simp only [emit_trace, emits_trace, List.nil_append, List.filterMap_append,
    curses_setup_no_color_load, filterMap_color_load, hrc]
  simp [color_load_path, color_files]

/-- C3 (amended) at a command line without `--rcfile`. -/
theorem C3_color_cascade_witness :
    ∃ s, main_init (sample_env []) [(115, ""), (67, "")] ()
        = some ({ initial_config with convdate := 1 }, s) ∧
      s.trace.filterMap color_load_path
        = ["/etc" ++ "/colorizerc", "/etc" ++ "/cczerc"]
          ++ ["/root" ++ "/.colorizerc", "/root" ++ "/.cczerc"] :=
  C3_color_cascade (sample_env []) [(115, ""), (67, "")] () { initial_config with convdate := 1 }
    (by decide)


/-! ## The plugin list and the `plugins` array -/

theorem parse_opt_pluginlist (key : Int) (arg : String) (c : ccze_config_t)
    (hinv : c.pluginlist.length = c.pluginlist_len) :
    (parse_opt key arg c).2.pluginlist
        = c.pluginlist ++ (if key = 112 then [arg] else [])
      ∧ (parse_opt key arg c).2.pluginlist.length = (parse_opt key arg c).2.pluginlist_len := by
  unfold parse_opt
  by_cases h112 : key = 112
  · simp only [h112, if_true]
    have ht : c.pluginlist.take c.pluginlist_len = c.pluginlist := by
      rw [← hinv]; exact List.take_length _
    split_ifs <;> simp [ht, hinv]
  · simp only [h112, if_false]
    split_ifs <;> simp [hinv]

theorem argp_parse_pluginlist :
    ∀ (argv : List (Int × String)) (c0 c : ccze_config_t),
      c0.pluginlist.length = c0.pluginlist_len → argp_parse argv c0 = some c →
      c.pluginlist = c0.pluginlist ++ plugin_options argv
        ∧ c.pluginlist.length = c.pluginlist_len := by
  intro argv
  induction argv with
  | nil =>
    intro c0 c hinv h
    simp [argp_parse] at h
    subst h
    simp [plugin_options, hinv]
  | cons o opts ih =>
    intro c0 c hinv h
    obtain ⟨key, arg⟩ := o
    simp only [argp_parse] at h
    split_ifs at h with h0
    obtain ⟨h1, h2⟩ := parse_opt_pluginlist key arg c0 hinv
    obtain ⟨h3, h4⟩ := ih _ c h2 h
    refine ⟨?_, h4⟩
    rw [h3, h1]
    by_cases hk : key = 112 <;> simp [plugin_options, hk]

theorem set_first_null {α : Type} (pre : List (Cell α)) (k : Nat) (y : Cell α) :
    (pre ++ List.replicate (k + 1) (Cell.val none)).set pre.length y
      = (pre ++ [y]) ++ List.replicate k (Cell.val none) := by
  induction pre with
  | nil => simp [List.replicate_succ]
  | cons x xs ih => simp [ih]

/-- The load loop while the array of 10 cells is not full: the names are
loaded from the last cell of `pluginlist` down to the first, and the results
are stored in that order. -/
theorem load_loop_small {σ : Type} (env : Env σ) (pluginlist : List String) :
    ∀ (len : Nat) (pre : List (Cell (ccze_plugin_t σ))) (k : Nat) (s : State σ),
      len ≤ pluginlist.length → pre.length + len < 10 → pre.length + k = 10 →
      ∃ s1, load_loop env pluginlist len (pre ++ List.replicate k (Cell.val none)) pre.length 10 s
        = some (pre ++ ((pluginlist.take len).reverse.map
              (fun n => Cell.val (env.ccze_plugin_load n)))
            ++ List.replicate (k - len) (Cell.val none), s1) := by
  intro len
  induction len with
  | zero => intro pre k s _ _ _; exact ⟨s, by simp [load_loop]⟩
  | succ len ih =>
    intro pre k s hlen hlt hk
    have hlen1 : len < pluginlist.length := hlen
    have hget : pluginlist.get? len = some pluginlist[len] := by
      simp [List.getElem?_eq_getElem hlen1]
    obtain ⟨k1, rfl⟩ : ∃ k1, k = k1 + 1 := ⟨k - 1, by omega⟩
    have hlt1 : pre.length
        < (pre ++ List.replicate (k1 + 1) (Cell.val none : Cell (ccze_plugin_t σ))).length := by
      simp
    have hfull : ¬ (pre.length + 1 ≥ 10) := by omega
    obtain ⟨s1, h1⟩ := ih (pre ++ [Cell.val (env.ccze_plugin_load pluginlist[len])]) k1
      (emit env (.ccze_plugin_load pluginlist[len]) s) (by omega)
      (by simp; omega) (by simp; omega)
    refine ⟨s1, ?_⟩
    simp only [load_loop, hget, hlt1, if_true, hfull, if_false, set_first_null]
    simp only [List.length_append, List.length_singleton] at h1
    rw [h1]
    have htake : pluginlist.take (len + 1) = pluginlist.take len ++ [pluginlist[len]] := by
      rw [List.take_succ, List.getElem?_eq_getElem hlen1]; rfl
    rw [htake, List.reverse_append, Nat.add_sub_add_right]
    simp only [List.reverse_cons, List.reverse_nil, List.nil_append, List.map_append,
      List.map_cons, List.map_nil, List.append_assoc]

theorem registry_loaded {α : Type} :
    ∀ (ps : List α) (tail : List (Cell α)),
      registry (ps.map (fun p => Cell.val (some p)) ++ Cell.val none :: tail) = some ps := by
  intro ps
  induction ps with
  | nil => intro tail; rfl
  | cons p ps ih => intro tail; simp [registry, ih]

/-- With 10 `--plugin` options the array is full after the tenth store and is
doubled by `realloc`; the cell after the ten plugins is indeterminate, so the
walk `while (plugins[i])` reads a cell that was never written. -/
theorem registry_ten_names :
    ((load_plugins (sample_env [sample_plugin "a" 0 none])
        { initial_config with pluginlist := List.replicate 10 "a", pluginlist_len := 10,
                              pluginlist_alloc := 20 } ⟨(), []⟩).map
      (fun r => ((registry r.1).isNone, r.1.length))) = some (true, 20)
    ∧ argp_parse (List.replicate 10 (112, "a")) initial_config
      = some { initial_config with pluginlist := List.replicate 10 "a", pluginlist_len := 10,
                                   pluginlist_alloc := 20 } := by
  decide

/-- C2 as stated fails: for `--plugin a --plugin b`, both of which load, the
registry is `b`, `a`. -/
theorem C2_counterexample :
    ((load_plugins (sample_env [sample_plugin "a" 0 none, sample_plugin "b" 0 none])
        { initial_config with pluginlist := ["a", "b"], pluginlist_len := 2 } ⟨(), []⟩).bind
      (fun r => (registry r.1).map (fun ps => ps.map (fun p => p.name)))) = some ["b", "a"]
    ∧ argp_parse [(112, "a"), (112, "b")] initial_config
      = some { initial_config with pluginlist := ["a", "b"], pluginlist_len := 2 }
    ∧ ((load_plugins (sample_env [sample_plugin "a" 0 none, sample_plugin "b" 0 none])
        { initial_config with pluginlist := ["a", "b"], pluginlist_len := 2 } ⟨(), []⟩).bind
      (fun r => (registry r.1).map (fun ps => ps.map (fun p => p.name)))) ≠ some ["a", "b"] := by
  decide

/-- C2, amended.  For every command line with at least one and fewer than 10
`--plugin NAME` options, all of whose loads succeed, the registry built by
`main` (`parse_opt` collecting the names, then the load loop) consists of
exactly the named plugins in the reverse of the order in which the options
were given. -/
theorem C2_registry_reverse_order {σ : Type} (env : Env σ) (argv : List (Int × String))
    (c : ccze_config_t) (s : State σ)
    (hparse : argp_parse argv initial_config = some c)
    (hne : plugin_options argv ≠ [])
    (hlt : (plugin_options argv).length < 10)
    (hload : ∀ n ∈ plugin_options argv, (env.ccze_plugin_load n).isSome = true) :
    ∃ plugins s1 ps, load_plugins env c s = some (plugins, s1) ∧
      registry plugins = some ps ∧
      ps.map some = (plugin_options argv).reverse.map env.ccze_plugin_load := by
  obtain ⟨hlist, hlen⟩ := argp_parse_pluginlist argv initial_config c rfl hparse
  simp only [initial_config, List.nil_append] at hlist
  have hlen0 : c.pluginlist_len ≠ 0 := by
    rw [← hlen, hlist]
    simpa using hne
  obtain ⟨s1, h1⟩ := load_loop_small env c.pluginlist c.pluginlist_len [] 10 s
    (by omega) (by rw [← hlen, hlist]; simpa using hlt) (by simp)
  have htake : c.pluginlist.take c.pluginlist_len = plugin_options argv := by
    rw [← hlen, List.take_length, hlist]
  obtain ⟨k, hk⟩ : ∃ k, 10 - c.pluginlist_len = k + 1 :=
    ⟨10 - c.pluginlist_len - 1, by rw [← hlen, hlist]; omega⟩
  have hmap : (plugin_options argv).reverse.map (fun n => Cell.val (env.ccze_plugin_load n))
      = ((plugin_options argv).reverse.filterMap env.ccze_plugin_load).map
          (fun p => Cell.val (some p)) := by
    have hall : ∀ n ∈ (plugin_options argv).reverse, (env.ccze_plugin_load n).isSome = true :=
      fun n hn => hload n (List.mem_reverse.1 hn)
    generalize (plugin_options argv).reverse = l at hall
    induction l with
    | nil => rfl
    | cons n ns ih =>
      have hn := hall n (List.mem_cons_self _ _)
      obtain ⟨p, hp⟩ := Option.isSome_iff_exists.1 hn
      simp [List.filterMap_cons, hp, ih (fun x hx => hall x (List.mem_cons_of_mem _ hx))]
  rw [htake, hk, hmap] at h1
  simp only [List.nil_append, List.length_nil] at h1
  refine ⟨((plugin_options argv).reverse.filterMap env.ccze_plugin_load).map
      (fun p => Cell.val (some p)) ++ List.replicate (k + 1) (Cell.val none), s1,
    (plugin_options argv).reverse.filterMap env.ccze_plugin_load, ?_, ?_, ?_⟩
  · simp only [load_plugins, if_neg hlen0, calloc]
    exact h1
  · rw [List.replicate_succ]
    exact registry_loaded _ _
  · have hall : ∀ n ∈ (plugin_options argv).reverse, (env.ccze_plugin_load n).isSome = true :=
      fun n hn => hload n (List.mem_reverse.1 hn)
    generalize (plugin_options argv).reverse = l at hall
    induction l with
    | nil => rfl
    | cons n ns ih =>
      have hn := hall n (List.mem_cons_self _ _)
      obtain ⟨p, hp⟩ := Option.isSome_iff_exists.1 hn
      simp [List.filterMap_cons, hp, ih (fun x hx => hall x (List.mem_cons_of_mem _ hx))]

/-- C2 (amended) at `--plugin a --scroll --plugin b`. -/
theorem C2_registry_reverse_order_witness :
    ∃ plugins s1 ps,
      load_plugins (sample_env [sample_plugin "a" 0 none, sample_plugin "b" 0 none])
        { initial_config with pluginlist := ["a", "b"], pluginlist_len := 2 } ⟨(), []⟩
        = some (plugins, s1) ∧
      registry plugins = some ps ∧
      ps.map some = (plugin_options [(112, "a"), (115, ""), (112, "b")]).reverse.map
        (sample_env [sample_plugin "a" 0 none, sample_plugin "b" 0 none]).ccze_plugin_load :=
  C2_registry_reverse_order (sample_env [sample_plugin "a" 0 none, sample_plugin "b" 0 none])
    [(112, "a"), (115, ""), (112, "b")]
    { initial_config with pluginlist := ["a", "b"], pluginlist_len := 2 } ⟨(), []⟩
    (by decide) (by decide) (by decide) (by decide)

/-- C5: the code at `--plugin a --plugin bad --plugin c`, where `a` and `c`
load and `bad` does not.  The load loop stores the NULL result of `bad` in the
array, after `c` and before `a`; the NULL cell ends the registry, which is
`c` alone.  `a` was loaded, but none of its hooks is ever called: the only
hook calls of the whole run are those of plugin 0 (`c`). -/
theorem C5_failed_load_truncates_registry :
    ((sample_env [sample_plugin "a" 0 none, sample_plugin "c" 0 none]).ccze_plugin_load
        "a").isSome = true
    ∧ argp_parse [(112, "a"), (112, "bad"), (112, "c")] initial_config
      = some { initial_config with pluginlist := ["a", "bad", "c"], pluginlist_len := 3 }
    ∧ ((load_plugins (sample_env [sample_plugin "a" 0 none, sample_plugin "c" 0 none])
        { initial_config with pluginlist := ["a", "bad", "c"], pluginlist_len := 3 }
        ⟨(), []⟩).bind
      (fun r => (registry r.1).map (fun ps => ps.map (fun p => p.name)))) = some ["c"]
    ∧ (main (sample_env [sample_plugin "a" 0 none, sample_plugin "c" 0 none])
        [(112, "a"), (112, "bad"), (112, "c")] ['h', 'i', '\n'] ()).map
        (fun s => s.trace.filter is_hook)
      = some [Event.startup 0, Event.handler 0 ['h', 'i'] 120 0 none, Event.shutdown 0] := by
  decide


/-! ## `ccze_print_date` -/

theorem atol_non_numeric (date : List Char)
    (h : ∀ c, date.head? = some c →
      isspace c = false ∧ c ≠ '-' ∧ c ≠ '+' ∧ isdigit c = false) :
    atol date = 0 := by
  cases date with
  | nil => rfl
  | cons c r =>
    obtain ⟨h1, h2, h3, h4⟩ := h c rfl
    have hmax : (0 : Int) ≤ LONG_MAX := by decide
    simp [atol, List.dropWhile, h1, h2, h3, digits_value, h4, hmax]

theorem gmtime_zero : gmtime 0 = some
    { tm_sec := 0, tm_min := 0, tm_hour := 0, tm_mday := 1, tm_mon := 0, tm_year := 70 } := by
  decide

/-- C4 as stated fails: with `convert_date` enabled, the non-numeric text
`notanumber` is not rendered unchanged; `atol` gives 0 and the text rendered
is the timestamp of the epoch. -/
theorem C4_counterexample :
    ccze_print_date 1 "notanumber".toList
      = some [Event.CCZE_ADDSTR .CCZE_COLOR_DATE "Jan  1 00:00:00".toList]
    ∧ ccze_print_date 1 "notanumber".toList
      ≠ some [Event.CCZE_ADDSTR .CCZE_COLOR_DATE "notanumber".toList] := by
  decide

/-- The call `gmtime` yields a result for every time from the epoch to the
last second of the year 2147485547, the largest year that fits `tm_year`. -/
theorem gmtime_in_range (t : Int) (h0 : 0 ≤ t) (h1 : t ≤ 67768036191676799) :
    ∃ r, gmtime t = some r ∧ r.tm_hour < 24 ∧ r.tm_min < 60 ∧ r.tm_sec < 60 := by
  unfold gmtime
  simp only
  generalize hdays : t / 86400 = days
  generalize hsecs : (t % 86400).toNat = secs
  generalize hera : (days + 719468) / 146097 = era
  generalize hdoe : ((days + 719468) % 146097).toNat = doe
  generalize hyoe : (doe - doe / 1460 + doe / 36524 - doe / 146096) / 365 = yoe
  generalize hdoy : doe - (365 * yoe + yoe / 4 - yoe / 100) = doy
  generalize hmp : (5 * doy + 2) / 153 = mp
  have hdoe_lt : doe < 146097 := by omega
  have hsecs_lt : secs < 86400 := by omega
  have hyoe_le : yoe ≤ 399 := by omega
  have hera0 : 0 ≤ era := by omega
  have hera_le : era ≤ 5368713 := by omega
  have hlast : era = 5368713 → doe ≤ 127043 := by omega
  have hy : ¬ ((yoe : Int) + era * 400
        + (if (if mp < 10 then mp + 3 else mp - 9) ≤ 2 then 1 else 0) - 1900 > 2 ^ 31 - 1 ∨
      (yoe : Int) + era * 400
        + (if (if mp < 10 then mp + 3 else mp - 9) ≤ 2 then 1 else 0) - 1900 < -(2 ^ 31)) := by
    by_cases he : era = 5368713
    · have hd := hlast he
      have hyoe347 : yoe ≤ 347 := by omega
      by_cases hy347 : yoe = 347
      · have hdoy305 : doy ≤ 305 := by omega
        have hmp9 : mp < 10 := by omega
        simp only [hmp9, if_true]
        rw [if_neg (by omega)]
        omega
      · split_ifs <;> omega
    · split_ifs <;> omega
  rw [if_neg hy]
  exact ⟨_, rfl, by simp only; omega, by simp only; omega, by simp only; omega⟩

/-- Past the last second of the year 2147485547 `gmtime` returns NULL, and
`ccze_print_date` hands that NULL to `strftime` unchecked: for the text
`99999999999999999999`, which `atol` clamps to `LONG_MAX`, the call has no
defined outcome. -/
theorem print_date_gmtime_null :
    gmtime 67768036191676800 = none
    ∧ atol "99999999999999999999".toList = LONG_MAX
    ∧ gmtime LONG_MAX = none
    ∧ ccze_print_date 1 "99999999999999999999".toList = none := by
  decide

/-- C4, amended.  With `convert_date` enabled, `ccze_print_date` renders the
input text unchanged, in the date colour, for every text whose `atol` value is
negative (such as a minus sign followed by digits of non-zero value); for
every text whose `atol` value `t` is between 0 and 67768036191676799 (the last
second of the year 2147485547, the range in which `gmtime` yields a result) it
renders the `"%b %e %T"` UTC timestamp of `t`.  A text that does not begin
with white space, a sign or a digit, such as `notanumber`, has `atol` value 0
and is rendered as `Jan  1 00:00:00`, the same as `0`.  Values past that
range are left out. -/
theorem C4_print_date (convdate : Int) (hconv : convdate ≠ 0) (date : List Char) :
    (atol date < 0 →
      ccze_print_date convdate date = some [Event.CCZE_ADDSTR .CCZE_COLOR_DATE date])
    ∧ (∀ r, date = '-' :: r → 0 < digits_value 0 r →
      ccze_print_date convdate date = some [Event.CCZE_ADDSTR .CCZE_COLOR_DATE date])
    ∧ (0 ≤ atol date →
      ccze_print_date convdate date
        = (gmtime (atol date)).map
            (fun t => [Event.CCZE_ADDSTR .CCZE_COLOR_DATE (strftime_b_e_T t)]))
    ∧ (0 ≤ atol date → atol date ≤ 67768036191676799 →
      ∃ t, gmtime (atol date) = some t ∧
        ccze_print_date convdate date
          = some [Event.CCZE_ADDSTR .CCZE_COLOR_DATE (strftime_b_e_T t)])
    ∧ ((∀ c, date.head? = some c →
          isspace c = false ∧ c ≠ '-' ∧ c ≠ '+' ∧ isdigit c = false) →
      ccze_print_date convdate date
        = some [Event.CCZE_ADDSTR .CCZE_COLOR_DATE "Jan  1 00:00:00".toList]) := by
  have hneg : atol date < 0 →
      ccze_print_date convdate date = some [Event.CCZE_ADDSTR .CCZE_COLOR_DATE date] := by
    intro h
    simp [ccze_print_date, hconv, h]
  have hpos : 0 ≤ atol date →
      ccze_print_date convdate date
        = (gmtime (atol date)).map
            (fun t => [Event.CCZE_ADDSTR .CCZE_COLOR_DATE (strftime_b_e_T t)]) := by
    intro h
    simp only [ccze_print_date, if_pos hconv, if_neg (not_lt.2 h)]
    cases gmtime (atol date) <;> rfl
  refine ⟨hneg, ?_, hpos, ?_, ?_⟩
  · intro r hr hv
    apply hneg
    subst hr
    have h1 : (0 : Int) < (digits_value 0 r : Int) := by exact_mod_cast hv
    have h2 : LONG_MIN < 0 := by decide
    have hsp : isspace '-' = false := by decide
    simp only [atol, List.dropWhile, hsp, if_true]
    exact max_lt h2 (by omega)
  · intro h0 h1
    obtain ⟨t, ht, _⟩ := gmtime_in_range (atol date) h0 h1
    exact ⟨t, ht, by rw [hpos h0, ht]; rfl⟩
  · intro h
    have h0 := atol_non_numeric date h
    rw [hpos (by omega), h0, gmtime_zero]
    decide

/-- C4 (amended) at the texts `-5`, `1700000000`, `0` and `notanumber`, each
with the hypothesis of its case discharged. -/
theorem C4_print_date_witness :
    ccze_print_date 1 "-5".toList = some [Event.CCZE_ADDSTR .CCZE_COLOR_DATE "-5".toList]
    ∧ ccze_print_date 1 "-5".toList = some [Event.CCZE_ADDSTR .CCZE_COLOR_DATE "-5".toList]
    ∧ (∃ t, gmtime (atol "1700000000".toList) = some t ∧
        ccze_print_date 1 "1700000000".toList
          = some [Event.CCZE_ADDSTR .CCZE_COLOR_DATE (strftime_b_e_T t)])
    ∧ ccze_print_date 1 "notanumber".toList
      = some [Event.CCZE_ADDSTR .CCZE_COLOR_DATE "Jan  1 00:00:00".toList]
    ∧ ccze_print_date 1 "0".toList
      = some [Event.CCZE_ADDSTR .CCZE_COLOR_DATE "Jan  1 00:00:00".toList]
    ∧ ccze_print_date 1 "1700000000".toList
      = some [Event.CCZE_ADDSTR .CCZE_COLOR_DATE "Nov 14 22:13:20".toList]
    ∧ ccze_print_date 0 "1700000000".toList
      = some [Event.CCZE_ADDSTR .CCZE_COLOR_DATE "1700000000".toList] :=
  ⟨(C4_print_date 1 (by decide) "-5".toList).1 (by decide),
   (C4_print_date 1 (by decide) "-5".toList).2.1 ['5'] rfl (by decide),
   (C4_print_date 1 (by decide) "1700000000".toList).2.2.2.1 (by decide) (by decide),
   (C4_print_date 1 (by decide) "notanumber".toList).2.2.2.2
     (by intro c hc
         simp only [String.toList, List.head?, Option.some.injEq] at hc
         subst hc
         decide),
   by decide, by decide, by decide⟩

/-! ## Newline stripping -/

/-- C10: the code at an input whose last line has no newline, and at a line
with a NUL byte before its newline.  `getline` returns the line, `strchr`
finds no newline in its C-string extent and returns NULL, and `main` writes
through that NULL: the run has no defined outcome. -/
theorem C10_newline_lookup_fails :
    getlines ['a', 'b', 'c'] = [['a', 'b', 'c']]
    ∧ strchr ['a', 'b', 'c'] '\n' = none
    ∧ (main (sample_env []) [] ['a', 'b', 'c'] ()).isNone = true
    ∧ getlines ['a', '\x00', 'b', '\n'] = [['a', '\x00', 'b', '\n']]
    ∧ strchr ['a', '\x00', 'b', '\n'] '\n' = none
    ∧ (main (sample_env []) [] ['a', '\x00', 'b', '\n'] ()).isNone = true := by
  decide

/-- C8: the code at the input `hi`, newline, `abc` without a final newline,
with the one plugin `a`.  On the newline-terminated input `hi` the hook calls
are startup, handler, shutdown; with the unterminated last line the run has no
defined outcome (the write through the NULL result of `strchr`), so the
teardown and the shutdown hook are never reached. -/
theorem C8_unterminated_input_no_teardown :
    (main (sample_env [sample_plugin "a" 0 none]) [(112, "a")] ['h', 'i', '\n'] ()).map
        (fun s => s.trace.filter is_hook)
      = some [Event.startup 0, Event.handler 0 ['h', 'i'] 120 0 none, Event.shutdown 0]
    ∧ getlines ['h', 'i', '\n', 'a', 'b', 'c'] = [['h', 'i', '\n'], ['a', 'b', 'c']]
    ∧ (main (sample_env [sample_plugin "a" 0 none]) [(112, "a")]
        ['h', 'i', '\n', 'a', 'b', 'c'] ()).isNone = true := by
  decide


/-! ## Teardown -/

theorem shutdown_loop_spec {σ : Type} (env : Env σ) :
    ∀ (cells : List (Cell (ccze_plugin_t σ))) (ps : List (ccze_plugin_t σ)) (i : Nat)
      (s : State σ), registry cells = some ps →
      ∃ s1, shutdown_loop env cells i s = some s1 ∧
        s1.trace = s.trace ++ shutdown_events ps i := by
  intro cells
  induction cells with
  | nil => intro ps i s h; simp [registry] at h
  | cons c cells ih =>
    intro ps i s h
    match c, h with
    | .indeterminate, h => simp [registry] at h
    | .val none, h =>
      simp only [registry, Option.some.injEq] at h
      subst h
      exact ⟨s, rfl, by simp [shutdown_events]⟩
    | .val (some p), h =>
      obtain ⟨ps1, rfl, h1⟩ := registry_cons_some p cells ps h
      obtain ⟨s1, h2, h3⟩ := ih ps1 (i + 1)
        (emits env [.free_name i, .dlclose i p.dlhandle, .free_plugin i]
          { world := p.shutdown s.world, trace := s.trace ++ [.shutdown i] }) h1
      refine ⟨s1, by simp only [shutdown_loop, h2], ?_⟩
      rw [h3, emits_trace]
      simp [shutdown_events]

theorem sigint_handler_spec {σ : Type} (env : Env σ) (plugins : List (Cell (ccze_plugin_t σ)))
    (ps : List (ccze_plugin_t σ)) (s : State σ) (h : registry plugins = some ps) :
    ∃ s1, sigint_handler env plugins s = some s1 ∧
      s1.trace = s.trace ++ [.endwin, .ccze_wordcolor_shutdown] ++ shutdown_events ps 0
        ++ [.free_plugins, .exit 0] := by
  obtain ⟨s1, h1, h2⟩ := shutdown_loop_spec env plugins ps 0
    (emits env [.endwin, .ccze_wordcolor_shutdown] s) h
  refine ⟨emits env [.free_plugins, .exit 0] s1, by simp only [sigint_handler, h1], ?_⟩
  rw [emits_trace, h2, emits_trace]

theorem shutdown_events_count_shutdown {σ : Type} :
    ∀ (ps : List (ccze_plugin_t σ)) (i j : Nat),
      (shutdown_events ps i).count (Event.shutdown j)
        = if i ≤ j ∧ j < i + ps.length then 1 else 0 := by
  intro ps
  induction ps with
  | nil =>
    intro i j
    have hf : ¬ (i ≤ j ∧ j < i + ([] : List (ccze_plugin_t σ)).length) := by
      simp only [List.length_nil]; omega
    rw [if_neg hf]
    simp [shutdown_events]
  | cons p ps ih =>
    intro i j
    simp only [shutdown_events, List.count_append, ih, List.length_cons]
    by_cases hij : i = j
    · subst hij
      simp [List.count_cons]
    · have hne : ¬ (Event.shutdown i = Event.shutdown j) := by
        intro he; injection he with he; exact hij he
      simp only [List.count_cons, List.count_nil, beq_iff_eq, hne, if_false]
      simp only [reduceCtorEq, if_false, Nat.zero_add]
      by_cases h1 : i + 1 ≤ j ∧ j < i + 1 + ps.length
      · rw [if_pos h1, if_pos (by omega)]
      · rw [if_neg h1, if_neg (by omega)]

theorem run_append {σ : Type} (env : Env σ) (plugins : List (Cell (ccze_plugin_t σ))) :
    ∀ (as bs : List Action) (m : Teardown σ),
      Teardown.run env plugins (as ++ bs) m
        = (Teardown.run env plugins as m).bind (Teardown.run env plugins bs) := by
  intro as
  induction as with
  | nil => intro bs m; rfl
  | cons a as ih =>
    intro bs m
    cases a with
    | step =>
      simp only [List.cons_append, Teardown.run]
      cases Teardown.step env plugins m with
      | none => rfl
      | some m1 => exact ih bs m1
    | enter =>
      simp only [List.cons_append, Teardown.run]
      exact ih bs _

theorem get?_of_drop {α : Type} :
    ∀ (l : List α) (i : Nat) (c : α) (cells : List α), l.drop i = c :: cells →
      l[i]? = some c ∧ l.drop (i + 1) = cells := by
  intro l
  induction l with
  | nil => intro i c cells h; simp at h
  | cons x xs ih =>
    intro i c cells h
    cases i with
    | zero => simp at h; simp [h]
    | succ i => simpa using ih i c cells (by simpa using h)

/-- The loop of `sigint_handler` as a sequence of steps: from the loop test at
index `i`, with nothing at an index of `i` or more released, 5 steps for each
plugin and one more for the final test reach `free (plugins)`, in the state
that `shutdown_loop` computes. -/
theorem run_shutdown_loop {σ : Type} (env : Env σ) (plugins : List (Cell (ccze_plugin_t σ))) :
    ∀ (cells : List (Cell (ccze_plugin_t σ))) (ps : List (ccze_plugin_t σ)) (i : Nat)
      (m : Teardown σ),
      plugins.drop i = cells → registry cells = some ps → m.pc = .test i →
      m.array_freed = false →
      (∀ j ∈ m.names_freed, j < i) → (∀ j ∈ m.handles_closed, j < i) →
      (∀ j ∈ m.records_freed, j < i) →
      ∃ m1, Teardown.run env plugins (List.replicate (5 * ps.length + 1) .step) m = some m1 ∧
        m1.pc = .free_plugins ∧ m1.array_freed = false ∧
        shutdown_loop env cells i m.st = some m1.st := by
  intro cells
  induction cells with
  | nil => intro ps i m _ h; simp [registry] at h
  | cons c cells ih =>
    intro ps i m hdrop h hpc harr hn hh hr
    obtain ⟨hget, hdrop1⟩ := get?_of_drop plugins i c cells hdrop
    match c, h with
    | .indeterminate, h => simp [registry] at h
    | .val none, h =>
      simp only [registry, Option.some.injEq] at h
      subst h
      refine ⟨{ m with pc := .free_plugins }, ?_, rfl, harr, rfl⟩
      simp [Teardown.run, Teardown.step, hpc, harr, hget]
    | .val (some p), h =>
      obtain ⟨ps1, rfl, h1⟩ := registry_cons_some p cells ps h
      have hni : i ∉ m.names_freed := fun hi => Nat.lt_irrefl _ (hn i hi)
      have hhi : i ∉ m.handles_closed := fun hi => Nat.lt_irrefl _ (hh i hi)
      have hri : i ∉ m.records_freed := fun hi => Nat.lt_irrefl _ (hr i hi)
      have hsplit : List.replicate (5 * (p :: ps1).length + 1) Action.step
          = [.step, .step, .step, .step, .step]
            ++ List.replicate (5 * ps1.length + 1) Action.step := by
        rw [List.length_cons, show 5 * (ps1.length + 1) + 1 = (5 * ps1.length + 1) + 5 by ring]
        simp [List.replicate_add, List.replicate_succ]
      have h5 : Teardown.run env plugins [.step, .step, .step, .step, .step] m
          = some { pc := .test (i + 1),
                   st := emits env [.free_name i, .dlclose i p.dlhandle, .free_plugin i]
                     { world := p.shutdown m.st.world, trace := m.st.trace ++ [.shutdown i] },
                   names_freed := i :: m.names_freed,
                   handles_closed := i :: m.handles_closed,
                   records_freed := i :: m.records_freed,
                   array_freed := m.array_freed } := by
        simp [Teardown.run, Teardown.step, hpc, harr, hget, hni, hhi, hri, emits]
      obtain ⟨m1, hm1, hpc1, harr1, hst1⟩ := ih ps1 (i + 1)
        { pc := .test (i + 1),
          st := emits env [.free_name i, .dlclose i p.dlhandle, .free_plugin i]
            { world := p.shutdown m.st.world, trace := m.st.trace ++ [.shutdown i] },
          names_freed := i :: m.names_freed,
          handles_closed := i :: m.handles_closed,
          records_freed := i :: m.records_freed,
          array_freed := m.array_freed } hdrop1 h1 rfl harr
        (by intro j hj
            rcases List.mem_cons.1 hj with rfl | hj
            · exact Nat.lt_succ_self _
            · exact Nat.lt_succ_of_lt (hn j hj))
        (by intro j hj
            rcases List.mem_cons.1 hj with rfl | hj
            · exact Nat.lt_succ_self _
            · exact Nat.lt_succ_of_lt (hh j hj))
        (by intro j hj
            rcases List.mem_cons.1 hj with rfl | hj
            · exact Nat.lt_succ_self _
            · exact Nat.lt_succ_of_lt (hr j hj))
      refine ⟨m1, ?_, hpc1, harr1, ?_⟩
      · rw [hsplit, run_append, h5]
        exact hm1
      · simp only [shutdown_loop]
        exact hst1

/-- An uninterrupted teardown, as steps, is `sigint_handler`. -/
theorem run_uninterrupted {σ : Type} (env : Env σ) (plugins : List (Cell (ccze_plugin_t σ)))
    (ps : List (ccze_plugin_t σ)) (s : State σ) (h : registry plugins = some ps) :
    ∃ m, Teardown.run env plugins (List.replicate (5 * ps.length + 5) .step) (Teardown.start s)
        = some m ∧ m.pc = .exited ∧ sigint_handler env plugins s = some m.st := by
  obtain ⟨m1, hm1, hpc1, harr1, hst1⟩ := run_shutdown_loop env plugins plugins ps 0
    { pc := .test 0, st := emits env [.endwin, .ccze_wordcolor_shutdown] s, names_freed := [],
      handles_closed := [], records_freed := [], array_freed := false }
    rfl h rfl rfl (by simp) (by simp) (by simp)
  have hsplit : List.replicate (5 * ps.length + 5) Action.step
      = [.step, .step] ++ (List.replicate (5 * ps.length + 1) Action.step ++ [.step, .step]) := by
    rw [show 5 * ps.length + 5 = 2 + ((5 * ps.length + 1) + 2) by ring]
    rw [List.replicate_add, List.replicate_add]
    rfl
  have h2 : Teardown.run env plugins [.step, .step] (Teardown.start s)
      = some { pc := .test 0, st := emits env [.endwin, .ccze_wordcolor_shutdown] s,
               names_freed := [], handles_closed := [], records_freed := [],
               array_freed := false } := by
    simp [Teardown.run, Teardown.step, Teardown.start, emits]
  refine ⟨{ m1 with pc := .exited, st := emits env [.free_plugins, .exit 0] m1.st,
                    array_freed := true }, ?_, rfl, ?_⟩
  · rw [hsplit, run_append, h2]
    simp only [Option.bind, run_append, hm1]
    simp [Teardown.run, Teardown.step, hpc1, harr1, emits]
  · simp only [sigint_handler]
    simp only at hst1
    rw [hst1]


theorem registry_eq_cons {α : Type} (plugins : List (Cell α)) (p : α) (ps : List α)
    (h : registry plugins = some (p :: ps)) :
    ∃ cells, plugins = Cell.val (some p) :: cells := by
  match plugins, h with
  | [], h => simp [registry] at h
  | .indeterminate :: _, h => simp [registry] at h
  | .val none :: _, h => simp [registry] at h
  | .val (some q) :: cells, h =>
    obtain ⟨ps1, h1, _⟩ := registry_cons_some q cells _ h
    injection h1 with hq _
    exact ⟨cells, by rw [hq]⟩

/-- C9 as stated fails: the teardown that `main` starts is entered again right
after the shutdown hook of plugin 0 has returned; the second entry is not a
no-op, it calls `endwin`, `ccze_wordcolor_shutdown` and the shutdown hook of
plugin 0 a second time.  Entered again one statement later (after the name of
plugin 0 was freed), the second entry goes on to free that name a second
time, which has no defined outcome. -/
theorem C9_counterexample :
    (Teardown.run (sample_env []) [.val (some (sample_plugin "a" 0 none)), .val none]
        [.step, .step, .step, .step, .enter, .step, .step, .step, .step]
        (Teardown.start ⟨(), []⟩)).map (fun m => m.st.trace)
      = some [Event.endwin, Event.ccze_wordcolor_shutdown, Event.shutdown 0,
          Event.endwin, Event.ccze_wordcolor_shutdown, Event.shutdown 0]
    ∧ (Teardown.run (sample_env []) [.val (some (sample_plugin "a" 0 none)), .val none]
        [.step, .step, .step, .step, .enter, .step, .step, .step, .step]
        (Teardown.start ⟨(), []⟩)).map (fun m => m.st.trace.count (Event.shutdown 0))
      = some 2
    ∧ (Teardown.run (sample_env []) [.val (some (sample_plugin "a" 0 none)), .val none]
        [.step, .step, .step, .step, .step, .enter, .step, .step, .step, .step]
        (Teardown.start ⟨(), []⟩)).map (fun m => m.st.trace)
      = some [Event.endwin, Event.ccze_wordcolor_shutdown, Event.shutdown 0, Event.free_name 0,
          Event.endwin, Event.ccze_wordcolor_shutdown, Event.shutdown 0]
    ∧ (Teardown.run (sample_env []) [.val (some (sample_plugin "a" 0 none)), .val none]
        [.step, .step, .step, .step, .step, .enter, .step, .step, .step, .step, .step]
        (Teardown.start ⟨(), []⟩)).isNone = true := by
  decide

/-- C9, amended.  In the step relation where `sigint_handler` may be entered
again while a teardown is in progress: a teardown that runs to its end without
a new entry is `sigint_handler`; it calls each plugin's shutdown hook exactly
once and releases each name, module handle and plugin record once, in registry
order, then the array, and exits with status 0; an entry after the exit does
nothing.  There is no re-entry guard: an entry during a teardown starts the
routine again from `endwin` with `i = 0`, and with a non-empty registry an
entry right after the shutdown hook of plugin 0 has returned calls that hook a
second time. -/
theorem C9_teardown_reentry {σ : Type} (env : Env σ) (plugins : List (Cell (ccze_plugin_t σ)))
    (ps : List (ccze_plugin_t σ)) (s : State σ) (h : registry plugins = some ps) :
    (∃ m, Teardown.run env plugins (List.replicate (5 * ps.length + 5) .step) (Teardown.start s)
        = some m ∧ m.pc = .exited ∧ sigint_handler env plugins s = some m.st ∧
      m.st.trace = s.trace ++ [.endwin, .ccze_wordcolor_shutdown] ++ shutdown_events ps 0
        ++ [.free_plugins, .exit 0] ∧
      (∀ j, j < ps.length → (shutdown_events ps 0).count (Event.shutdown j) = 1) ∧
      Teardown.enter m = m)
    ∧ (ps ≠ [] →
      ∃ m, Teardown.run env plugins
          [.step, .step, .step, .step, .enter, .step, .step, .step, .step] (Teardown.start s)
          = some m ∧
        m.st.trace = s.trace ++ [.endwin, .ccze_wordcolor_shutdown, .shutdown 0,
          .endwin, .ccze_wordcolor_shutdown, .shutdown 0]) := by
  constructor
  · obtain ⟨m, hm, hpc, hst⟩ := run_uninterrupted env plugins ps s h
    obtain ⟨s1, hs1, htr⟩ := sigint_handler_spec env plugins ps s h
    refine ⟨m, hm, hpc, hst, ?_, ?_, ?_⟩
    · rw [hst] at hs1
      injection hs1 with hs1
      rw [hs1]; exact htr
    · intro j hj
      rw [shutdown_events_count_shutdown, if_pos ⟨Nat.zero_le _, by omega⟩]
    · simp [Teardown.enter, hpc]
  · intro hne
    obtain ⟨p, ps1, rfl⟩ := List.exists_cons_of_ne_nil hne
    obtain ⟨cells, rfl⟩ := registry_eq_cons plugins p ps1 h
    refine ⟨_, rfl, ?_⟩
    simp [Teardown.enter, Teardown.start, emit]

/-- C9 (amended) at the registry with the one plugin `a`. -/
theorem C9_teardown_reentry_witness :
    (∃ m, Teardown.run (sample_env []) [.val (some (sample_plugin "a" 0 none)), .val none]
        (List.replicate (5 * [sample_plugin "a" 0 none].length + 5) .step)
        (Teardown.start ⟨(), []⟩) = some m ∧ m.pc = .exited ∧
      sigint_handler (sample_env []) [.val (some (sample_plugin "a" 0 none)), .val none]
        ⟨(), []⟩ = some m.st ∧
      m.st.trace = [] ++ [.endwin, .ccze_wordcolor_shutdown]
        ++ shutdown_events [sample_plugin "a" 0 none] 0 ++ [.free_plugins, .exit 0] ∧
      (∀ j, j < [sample_plugin "a" 0 none].length →
        (shutdown_events [sample_plugin "a" 0 none] 0).count (Event.shutdown j) = 1) ∧
      Teardown.enter m = m)
    ∧ ([sample_plugin "a" 0 none] ≠ [] →
      ∃ m, Teardown.run (sample_env []) [.val (some (sample_plugin "a" 0 none)), .val none]
          [.step, .step, .step, .step, .enter, .step, .step, .step, .step]
          (Teardown.start ⟨(), []⟩) = some m ∧
        m.st.trace = [] ++ [.endwin, .ccze_wordcolor_shutdown, .shutdown 0,
          .endwin, .ccze_wordcolor_shutdown, .shutdown 0]) :=
  C9_teardown_reentry (sample_env []) [.val (some (sample_plugin "a" 0 none)), .val none]
    [sample_plugin "a" 0 none] ⟨(), []⟩ rfl


/-! ## Lifecycle order on well-terminated input -/

theorem startup_loop_spec {σ : Type} :
    ∀ (cells : List (Cell (ccze_plugin_t σ))) (ps : List (ccze_plugin_t σ)) (i : Nat)
      (s : State σ), registry cells = some ps →
      ∃ s1, startup_loop cells i s = some s1 ∧
        s1.trace = s.trace ++ (List.range' i ps.length).map Event.startup := by
  intro cells
  induction cells with
  | nil => intro ps i s h; simp [registry] at h
  | cons c cells ih =>
    intro ps i s h
    match c, h with
    | .indeterminate, h => simp [registry] at h
    | .val none, h =>
      simp only [registry, Option.some.injEq] at h
      subst h
      exact ⟨s, rfl, by simp⟩
    | .val (some p), h =>
      obtain ⟨ps1, rfl, h1⟩ := registry_cons_some p cells ps h
      obtain ⟨s1, h2, h3⟩ := ih ps1 (i + 1)
        { world := p.startup s.world, trace := s.trace ++ [.startup i] } h1
      refine ⟨s1, by simp only [startup_loop, h2], ?_⟩
      rw [h3]
      simp [List.range']

theorem handler_events_filter {σ : Type} (subject : List Char) (subjlen : Nat) :
    ∀ (rs : List (Int × Option (List Char) × State σ)) (i : Nat),
      (∀ e ∈ handler_events i subject subjlen rs, (handler_index e).isSome = true)
      ∧ (handler_events i subject subjlen rs).filter is_hook
        = handler_events i subject subjlen rs := by
  intro rs
  induction rs with
  | nil => intro i; simp [handler_events]
  | cons r rs ih =>
    intro i
    rw [handler_events_cons]
    obtain ⟨h1, h2⟩ := ih (i + 1)
    constructor
    · intro e he
      rcases List.mem_cons.1 he with rfl | he
      · rfl
      · exact h1 e he
    · simp [is_hook, h2]

/-- One dispatch cycle over a well-formed array has a defined outcome, and
the hook calls it makes are handler calls. -/
theorem process_subject_hooks {σ : Type} (env : Env σ) (c : ccze_config_t)
    (plugins : List (Cell (ccze_plugin_t σ))) (ps : List (ccze_plugin_t σ))
    (subject : List Char) (subjlen : Nat) (s : State σ) (h : registry plugins = some ps) :
    ∃ s1 hs, process_subject env c plugins subject subjlen s = some s1 ∧
      s1.trace.filter is_hook = s.trace.filter is_hook ++ hs ∧
      ∀ e ∈ hs, (handler_index e).isSome = true := by
  obtain ⟨m, _, _, _, hd, htr⟩ := dispatch_spec subject subjlen plugins ps 0 none s h
  generalize (((call_all ps 0 subject subjlen none s).take m).getLast?).getD (0, none, s) = r
    at hd htr
  obtain ⟨hall, hfil⟩ := handler_events_filter subject subjlen
    ((call_all ps 0 subject subjlen none s).take m) 0
  refine ⟨after_dispatch env c subject r.1 r.2.1 r.2.2,
    handler_events 0 subject subjlen ((call_all ps 0 subject subjlen none s).take m),
    by simp only [process_subject, hd], ?_, hall⟩
  rw [after_dispatch_trace, htr]
  simp only [List.filter_append, hfil]
  cases r.2.1 <;> by_cases h0 : r.1 = 0 <;> simp [h0, is_hook]

theorem main_loop_hooks {σ : Type} (env : Env σ) (c : ccze_config_t)
    (plugins : List (Cell (ccze_plugin_t σ))) (ps : List (ccze_plugin_t σ))
    (h : registry plugins = some ps) :
    ∀ (lines : List (List Char)) (subjlen : Nat) (s : State σ),
      (∀ line ∈ lines, (strchr line '\n').isSome = true) →
      ∃ s1 hs, main_loop env c plugins lines subjlen s = some s1 ∧
        s1.trace.filter is_hook = s.trace.filter is_hook ++ hs ∧
        ∀ e ∈ hs, (handler_index e).isSome = true := by
  intro lines
  induction lines with
  | nil => intro subjlen s _; exact ⟨s, [], rfl, by simp, by simp⟩
  | cons l ls ih =>
    intro subjlen s hl
    obtain ⟨k, hk⟩ := Option.isSome_iff_exists.1 (hl l (List.mem_cons_self _ _))
    obtain ⟨s1, hs1, hp, ht, hh⟩ := process_subject_hooks env c plugins ps (l.take k)
      (env.getline_alloc subjlen (l.length + 1)) s h
    obtain ⟨s2, hs2, hm, ht2, hh2⟩ := ih (env.getline_alloc subjlen (l.length + 1)) s1
      (fun x hx => hl x (List.mem_cons_of_mem _ hx))
    refine ⟨s2, hs1 ++ hs2, ?_, ?_, ?_⟩
    · simp only [main_loop, loop_body, hk, hp, hm]
    · rw [ht2, ht, List.append_assoc]
    · intro e he
      rcases List.mem_append.1 he with he | he
      · exact hh e he
      · exact hh2 e he

theorem shutdown_events_filter {σ : Type} :
    ∀ (ps : List (ccze_plugin_t σ)) (i : Nat),
      (shutdown_events ps i).filter is_hook = (List.range' i ps.length).map Event.shutdown := by
  intro ps
  induction ps with
  | nil => intro i; rfl
  | cons p ps ih => intro i; simp [shutdown_events, is_hook, ih, List.range']

/-- Lifecycle order.  For every well-formed `plugins` array and every input
all of whose lines have a newline in their C-string extent, the last part of
`main` runs to `exit (0)`, and the hook calls it makes are: the startup hook
of each plugin once, in registry order; then handler calls only; then the
shutdown hook of each plugin once, in registry order. -/
theorem lifecycle_order {σ : Type} (env : Env σ) (c : ccze_config_t)
    (plugins : List (Cell (ccze_plugin_t σ))) (ps : List (ccze_plugin_t σ))
    (stdin : List Char) (s : State σ) (h : registry plugins = some ps)
    (hin : ∀ line ∈ getlines stdin, (strchr line '\n').isSome = true) :
    ∃ s1 hs, main_run env c plugins stdin s = some s1 ∧
      s1.trace.getLast? = some (Event.exit 0) ∧
      s1.trace.filter is_hook
        = s.trace.filter is_hook ++ (List.range ps.length).map Event.startup ++ hs
          ++ (List.range ps.length).map Event.shutdown ∧
      ∀ e ∈ hs, (handler_index e).isSome = true := by
  obtain ⟨s1, h1, t1⟩ := startup_loop_spec plugins ps 0 s h
  obtain ⟨s2, hs, h2, t2, hh⟩ := main_loop_hooks env c plugins ps h (getlines stdin) 0 s1 hin
  obtain ⟨s3, h3, t3⟩ := sigint_handler_spec env plugins ps
    (emits env [.refresh, .free_subject] s2) h
  refine ⟨s3, hs, by simp only [main_run, h1, h2, h3], ?_, ?_, hh⟩
  · rw [t3, show [Event.free_plugins, Event.exit 0]
        = [Event.free_plugins] ++ [Event.exit 0] from rfl, ← List.append_assoc]
    exact List.getLast?_concat _
  · rw [t3, emits_trace]
    simp only [List.filter_append, t2, t1, shutdown_events_filter, List.range_eq_range']
    have hs1 : ((List.range' 0 ps.length).map Event.startup).filter is_hook
        = (List.range' 0 ps.length).map Event.startup := by
      rw [List.filter_eq_self]
      intro e he
      obtain ⟨i, _, rfl⟩ := List.mem_map.1 he
      rfl
    rw [hs1]
    simp [is_hook]

end Ccze
